import Mathlib

/-!
Verification of the `fio` box geometry engine (`src/fio/box.py`).

The development shallowly embeds the Python source:

* `Fio.BoxInputDict` models the dynamic dict `BoxInputDict` (validated
  single-key writes, raw bulk `update`) over a `String`-indexed partial map;
  numeric values are rationals, which suffices for the key/flag mechanics.
* `Fio.Box` models the numeric state and the derived geometry (`Box.output`)
  over the real numbers: Python float arithmetic is idealised as exact real
  arithmetic, so the trailing `np.round(_, 9)` noise-suppression step of
  `Box.output` (a float-noise absorber) is not modelled, and `u_inv`
  (computed by `Box.output` but read by no modelled operation) is omitted.
* `Box._guess_type` is modelled over rationals, where every comparison of the
  source is decidable.

Boundary-code fields `bx`, `by`, `bz` are free-form strings read by no
modelled numeric operation; they appear only in the dict model.
-/

namespace Fio

/-- A value stored in the box input dict: Python numbers, booleans and
strings, as far as the modelled operations distinguish them. -/
inductive BVal where
  | num (q : ℚ)
  | bool (b : Bool)
  | str (s : String)
deriving DecidableEq, Repr

/-- The dynamic dict: a partial map from field names to values. -/
abbrev Store := String → Option BVal

namespace BoxInputDict

/-- Python truthiness of a stored value (`not self[...]`). -/
def truthy : BVal → Bool
  | .num q => q != 0
  | .bool b => b
  | .str s => s != ""

/-- Python `value != 90` on a stored value: only the number 90 compares
equal to 90. -/
def ne90 : BVal → Bool
  | .num q => q != 90
  | .bool _ => true
  | .str _ => true

/-- `abg = ('alpha', 'beta', 'gamma')` from the source. -/
def abg : List String := ["alpha", "beta", "gamma"]

/-- Write one key of the underlying dict (raw `dict.__setitem__`). -/
def setKey (d : Store) (k : String) (v : BVal) : Store :=
  fun k2 => if k2 = k then some v else d k2

/-- `any([self[k] != 90 for k in abg])`. -/
def anyAngleNe90 (d : Store) : Bool :=
  abg.any fun k => ((d k).map ne90).getD false

/-- `BoxInputDict._check_allow_tilt`, run on the store with `k` already set
to `v`. -/
def checkAllowTilt (d : Store) (k : String) (v : BVal) : Store :=
  if abg.contains k && ne90 v then
    setKey d "allow_tilt" (.bool true)
  else if k == "allow_tilt" && !(truthy (((d "allow_tilt")).getD (.bool false))) then
    if anyAngleNe90 d then setKey d "allow_tilt" (.bool true) else d
  else
    d

/-- `BoxInputDict.__setitem__` (and the identically-guarded `__setattr__`):
reject unknown keys with a `KeyError`, otherwise store and re-check the
tilt invariant. -/
def setitem (d : Store) (k : String) (v : BVal) : Except String Store :=
  if (d k).isSome then
    .ok (checkAllowTilt (setKey d k v) k v)
  else
    .error (k ++ " is not a Box input parameter")

/-- Apply a list of key/value pairs in order (raw `dict.update`; later
pairs win; no per-key validation, no tilt re-check). -/
def applyPairs (d : Store) (kvs : List (String × BVal)) : Store :=
  kvs.foldl (fun d2 kv => setKey d2 kv.1 kv.2) d

/-- `BoxInputDict.update`: raw `dict.update`, then pop (and warn about) the
keys that were not present before.  Returns the resulting store and the
warned invalid keys (empty list = no warning). -/
def update (d : Store) (kvs : List (String × BVal)) : Store × List String :=
  let d2 := applyPairs d kvs
  let invalid := ((kvs.map Prod.fst).filter fun k => (d k).isNone).dedup
  (fun k => if (d k).isSome then d2 k else none, invalid)

/-- Invariant I1 on a store: if some angle differs from 90 then the stored
`allow_tilt` is truthy. -/
def I1 (d : Store) : Prop :=
  anyAngleNe90 d = true → truthy ((d "allow_tilt").getD (.bool false)) = true

end BoxInputDict

/-- Build a store from an association list (first binding wins, as in a
Python dict literal without duplicate keys). -/
def storeOfList (l : List (String × BVal)) : Store :=
  fun k => (l.find? fun kv => kv.1 == k).map Prod.snd

/-- The default `Box.input` contents (`Box.__init__`). -/
def boxDefaults : List (String × BVal) :=
  [("x0", .num 0), ("y0", .num 0), ("z0", .num 0),
   ("lx", .num 1), ("ly", .num 1), ("lz", .num 1),
   ("alpha", .num 90), ("beta", .num 90), ("gamma", .num 90),
   ("allow_tilt", .bool false),
   ("bx", .str "pp"), ("by", .str "pp"), ("bz", .str "pp")]

/-- The closed field set of the canonical store. -/
def boxFieldNames : List String := boxDefaults.map Prod.fst

/-- The default store. -/
def initStore : Store := storeOfList boxDefaults

/-- A store is valid when it holds exactly the closed field set. -/
def validStore (d : Store) : Prop :=
  ∀ k, (d k).isSome ↔ k ∈ boxFieldNames

/-- `Box._guess_type`, over exact rationals.  `none` models a missing
(`None`) input; the two `ERROR` raises are modelled as `Except.error` with
the message of the call site. -/
def guessType : Option (List ℚ) → Except String String
  | none => .error "Missing Box input parameters"
  | some argv =>
    if argv.length = 9 then
      if argv.getD 0 0 < argv.getD 1 0 ∧ argv.getD 2 0 < argv.getD 3 0 ∧
          argv.getD 4 0 < argv.getD 5 0 then
        .ok "lmpdata"
      else if argv.getD 0 0 < argv.getD 1 0 ∧ argv.getD 3 0 < argv.getD 4 0 ∧
          argv.getD 6 0 < argv.getD 7 0 then
        .ok "lmpdump"
      else
        .ok "basis"
    else if argv.length = 6 then
      if argv.getD 1 0 ≤ 1 ∧ argv.getD 3 0 ≤ 1 ∧ argv.getD 4 0 ≤ 1 then
        .ok "dcd"
      else
        .ok "lattice"
    else
      .error "Incorrect Box input parameters"

/-! ## Geometry: vectors and matrices (the numpy primitives used) -/

/-- A cartesian 3-vector (one row of a numpy `(n,3)` array). -/
@[ext]
structure Vec3 where
  x : ℝ
  y : ℝ
  z : ℝ

noncomputable section

instance : Add Vec3 := ⟨fun v u => ⟨v.x + u.x, v.y + u.y, v.z + u.z⟩⟩

instance : Sub Vec3 := ⟨fun v u => ⟨v.x - u.x, v.y - u.y, v.z - u.z⟩⟩

instance : Neg Vec3 := ⟨fun v => ⟨-v.x, -v.y, -v.z⟩⟩

instance : SMul ℝ Vec3 := ⟨fun t v => ⟨t * v.x, t * v.y, t * v.z⟩⟩

@[simp]
theorem Vec3.add_x (v u : Vec3) : (v + u).x = v.x + u.x := rfl

@[simp]
theorem Vec3.add_y (v u : Vec3) : (v + u).y = v.y + u.y := rfl

@[simp]
theorem Vec3.add_z (v u : Vec3) : (v + u).z = v.z + u.z := rfl

@[simp]
theorem Vec3.sub_x (v u : Vec3) : (v - u).x = v.x - u.x := rfl

@[simp]
theorem Vec3.sub_y (v u : Vec3) : (v - u).y = v.y - u.y := rfl

@[simp]
theorem Vec3.sub_z (v u : Vec3) : (v - u).z = v.z - u.z := rfl

@[simp]
theorem Vec3.neg_x (v : Vec3) : (-v).x = -v.x := rfl

@[simp]
theorem Vec3.neg_y (v : Vec3) : (-v).y = -v.y := rfl

@[simp]
theorem Vec3.neg_z (v : Vec3) : (-v).z = -v.z := rfl

@[simp]
theorem Vec3.smul_x (t : ℝ) (v : Vec3) : (t • v).x = t * v.x := rfl

@[simp]
theorem Vec3.smul_y (t : ℝ) (v : Vec3) : (t • v).y = t * v.y := rfl

@[simp]
theorem Vec3.smul_z (t : ℝ) (v : Vec3) : (t • v).z = t * v.z := rfl

/-- Dot product (`np.dot` on 3-vectors). -/
def dotV (v u : Vec3) : ℝ := v.x * u.x + v.y * u.y + v.z * u.z

/-- Euclidean norm of a row (`np.linalg.norm(a, 2, -1)`). -/
def normV (v : Vec3) : ℝ := Real.sqrt (v.x ^ 2 + v.y ^ 2 + v.z ^ 2)

/-- The source helper `normalize` on one row: divide by the norm, a zero
norm being replaced by 1 (`l2[l2 == 0] = 1.0`). -/
def normalizeV (v : Vec3) : Vec3 :=
  let n := if normV v = 0 then 1 else normV v
  ⟨v.x / n, v.y / n, v.z / n⟩

/-- Raw `np.cross` of two 3-vectors. -/
def crossRaw (v u : Vec3) : Vec3 :=
  ⟨v.y * u.z - v.z * u.y, v.z * u.x - v.x * u.z, v.x * u.y - v.y * u.x⟩

/-- The source helper `cross`: normalized cross product. -/
def cross (v u : Vec3) : Vec3 := normalizeV (crossRaw v u)

/-- A row-major 3×3 matrix (rows `r0`, `r1`, `r2`). -/
@[ext]
structure Mat3 where
  r0 : Vec3
  r1 : Vec3
  r2 : Vec3

/-- Row-wise `normalize` of a matrix. -/
def normalizeM (m : Mat3) : Mat3 := ⟨normalizeV m.r0, normalizeV m.r1, normalizeV m.r2⟩

/-! ## The canonical numeric box state and the converters -/

/-- The numeric content of the canonical store `Box.input` (the free-form
boundary tokens `bx`, `by`, `bz` are carried only by the dict model). -/
structure BoxInput where
  x0 : ℝ
  y0 : ℝ
  z0 : ℝ
  lx : ℝ
  ly : ℝ
  lz : ℝ
  alpha : ℝ
  beta : ℝ
  gamma : ℝ
  allow_tilt : Bool

/-- The fields produced by the `_input_*` converters. -/
structure LatticeFields where
  lx : ℝ
  ly : ℝ
  lz : ℝ
  alpha : ℝ
  beta : ℝ
  gamma : ℝ

/-- `deg2rad = np.pi / 180.0`. -/
def deg2rad : ℝ := Real.pi / 180

/-- `rad2deg = 180.0 / np.pi`. -/
def rad2deg : ℝ := 180 / Real.pi

namespace Box

/-- `Box._input_basis`: lengths from the diagonal, angles from the arccos
of the dot products of the normalized rows. -/
def input_basis (v : Mat3) : LatticeFields :=
  let u := normalizeM v
  { lx := v.r0.x
    ly := v.r1.y
    lz := v.r2.z
    alpha := Real.arccos (dotV u.r1 u.r2) * rad2deg
    beta := Real.arccos (dotV u.r0 u.r2) * rad2deg
    gamma := Real.arccos (dotV u.r0 u.r1) * rad2deg }

/-- `Box._input_dcd`. -/
def input_dcd (a cg b cb ca c : ℝ) : LatticeFields :=
  { lx := a
    ly := b * Real.sqrt (1 - cg ^ 2)
    lz := c * Real.sqrt (1 - cb ^ 2 - (ca - cg * cb) ^ 2 / (1 - cg ^ 2))
    alpha := Real.arccos ca * rad2deg
    beta := Real.arccos cb * rad2deg
    gamma := Real.arccos cg * rad2deg }

/-- `Box._input_lattice`: cosines of the angles, then DCD. -/
def input_lattice (a b c alpha beta gamma : ℝ) : LatticeFields :=
  input_dcd a (Real.cos (gamma * deg2rad)) b (Real.cos (beta * deg2rad))
    (Real.cos (alpha * deg2rad)) c

/-- `self.input.update(func(data))` inside `Box.set_input`: overwrite the
six converter fields of the store. -/
def applyFields (s : BoxInput) (f : LatticeFields) : BoxInput :=
  { s with lx := f.lx, ly := f.ly, lz := f.lz,
           alpha := f.alpha, beta := f.beta, gamma := f.gamma }

open Classical in
/-- The tail of `Box.set_input`: always allow tilt if not orthogonal. -/
def tiltFix (s : BoxInput) : BoxInput :=
  if s.alpha ≠ 90 ∨ s.beta ≠ 90 ∨ s.gamma ≠ 90 then
    { s with allow_tilt := true }
  else
    s

/-- `Box.set_input(argv, typ='lattice')` on the numeric state. -/
def setLattice (s : BoxInput) (a b c alpha beta gamma : ℝ) : BoxInput :=
  tiltFix (applyFields s (input_lattice a b c alpha beta gamma))

/-- `Box.set_input(argv, typ='basis')` on the numeric state. -/
def setBasis (s : BoxInput) (v : Mat3) : BoxInput :=
  tiltFix (applyFields s (input_basis v))

/-! ## The derived geometry (`Box.output`) -/

/-- The derived read-only view `Box.output` (minus `u_inv`, which no
modelled operation reads, and minus the final `np.round(_, 9)` float-noise
suppression, since arithmetic is modelled exactly). -/
structure Output where
  xlo : ℝ
  xhi : ℝ
  ylo : ℝ
  yhi : ℝ
  zlo : ℝ
  zhi : ℝ
  allow_tilt : Prop
  cos_alpha : ℝ
  cos_beta : ℝ
  cos_gamma : ℝ
  a : ℝ
  b : ℝ
  c : ℝ
  xy : ℝ
  xz : ℝ
  yz : ℝ
  v : Mat3
  u : Mat3
  bn : Mat3
  x0 : ℝ
  y0 : ℝ
  z0 : ℝ
  lx : ℝ
  ly : ℝ
  lz : ℝ
  alpha : ℝ
  beta : ℝ
  gamma : ℝ

/-- `Box.output` as a pure function of the canonical state. -/
def output (s : BoxInput) : Output :=
  let ca := Real.cos (s.alpha * deg2rad)
  let cb := Real.cos (s.beta * deg2rad)
  let cg := Real.cos (s.gamma * deg2rad)
  let b := s.ly / Real.sqrt (1 - cg ^ 2)
  let c := s.lz / Real.sqrt (1 - cb ^ 2 - (ca - cg * cb) ^ 2 / (1 - cg ^ 2))
  let xy := b * cg
  let xz := c * cb
  let yz := (b * c * ca - xy * xz) / s.ly
  let v : Mat3 := ⟨⟨s.lx, 0, 0⟩, ⟨xy, s.ly, 0⟩, ⟨xz, yz, s.lz⟩⟩
  let u := normalizeM v
  { xlo := s.x0
    xhi := s.x0 + s.lx
    ylo := s.y0
    yhi := s.y0 + s.ly
    zlo := s.z0
    zhi := s.z0 + s.lz
    allow_tilt := s.allow_tilt = true ∨ s.alpha ≠ 90 ∨ s.beta ≠ 90 ∨ s.gamma ≠ 90
    cos_alpha := ca
    cos_beta := cb
    cos_gamma := cg
    a := s.lx
    b := b
    c := c
    xy := xy
    xz := xz
    yz := yz
    v := v
    u := u
    bn := ⟨cross u.r1 u.r2, cross u.r2 u.r0, cross u.r0 u.r1⟩
    x0 := s.x0
    y0 := s.y0
    z0 := s.z0
    lx := s.lx
    ly := s.ly
    lz := s.lz
    alpha := s.alpha
    beta := s.beta
    gamma := s.gamma }

/-! ## Containment (`Box.bbcheck`) -/

/-- The six signed face distances of one point, laid out as the columns
`(face_xlo face_ylo face_zlo face_xhi face_yhi face_zhi)` of the source. -/
structure Dist6 where
  xlo : ℝ
  ylo : ℝ
  zlo : ℝ
  xhi : ℝ
  yhi : ℝ
  zhi : ℝ

/-- The `dist` row of `Box.bbcheck` for one point. -/
def dist6 (s : BoxInput) (p : Vec3) : Dist6 :=
  let o := output s
  let lo : Vec3 := (⟨o.xlo, o.ylo, o.zlo⟩ : Vec3) - p
  let hi : Vec3 := lo + (o.v.r0 + o.v.r1 + o.v.r2)
  { xlo := -dotV o.bn.r0 lo
    ylo := -dotV o.bn.r1 lo
    zlo := -dotV o.bn.r2 lo
    xhi := dotV o.bn.r0 hi
    yhi := dotV o.bn.r1 hi
    zhi := dotV o.bn.r2 hi }

/-- `np.min(dist, axis=1)` for one point. -/
def minDist (s : BoxInput) (p : Vec3) : ℝ :=
  let d := dist6 s p
  min (min (min (min (min d.xlo d.ylo) d.zlo) d.xhi) d.yhi) d.zhi

/-- Membership in the `inbound` mask of `Box.bbcheck`. -/
def inbound (s : BoxInput) (p : Vec3) : Prop := 0 ≤ minDist s p

/-! ## Periodic wrap (`Box.wrap`) -/

/-- One summand of the wrap shift: the whole-lattice-vector repeat count
for one face (`abs(floor_divide(dist, length) * pbc)`, zeroed where the
distance is already non-negative). -/
def repCount (d n : ℝ) (pbc : Bool) : ℝ :=
  if 0 ≤ d then 0 else |(⌊d / n⌋ : ℝ) * (if pbc then 1 else 0)|

/-- The additive shift `Box.wrap` applies to one point. -/
def wrapShift (s : BoxInput) (pbc : Bool × Bool × Bool) (p : Vec3) : Vec3 :=
  let o := output s
  let d := dist6 s p
  let n0 := Real.sqrt (dotV o.v.r0 o.v.r0)
  let n1 := Real.sqrt (dotV o.v.r1 o.v.r1)
  let n2 := Real.sqrt (dotV o.v.r2 o.v.r2)
  repCount d.xlo n0 pbc.1 • o.v.r0 + repCount d.ylo n1 pbc.2.1 • o.v.r1 +
    repCount d.zlo n2 pbc.2.2 • o.v.r2 + repCount d.xhi n0 pbc.1 • (-o.v.r0) +
    repCount d.yhi n1 pbc.2.1 • (-o.v.r1) + repCount d.zhi n2 pbc.2.2 • (-o.v.r2)

open Classical in
/-- `Box.wrap`: identity when every point is inbound, else shift each point
by whole lattice vectors. -/
def wrap (s : BoxInput) (pts : List Vec3) (pbc : Bool × Bool × Bool) : List Vec3 :=
  if ∀ p ∈ pts, inbound s p then pts
  else pts.map fun p => p + wrapShift s pbc p

/-! ## Box growth (`Box.extend`) -/

/-- `np.min` of a list together with a seed value. -/
def listMinFrom (a : ℝ) (l : List ℝ) : ℝ := l.foldl min a

/-- `np.max` of a non-empty list (0 on the empty list, which the guarded
caller never passes). -/
def listMax1 : List ℝ → ℝ
  | [] => 0
  | h :: t => t.foldl max h

open Classical in
/-- `Box.extend`: no-op when every point is inbound, else move the low
corner and rebuild the basis through `_input_basis`.  `pbc` is the
broadcast per-axis periodic mask. -/
def extend (s : BoxInput) (pts : List Vec3) (pbc : Bool × Bool × Bool) : BoxInput :=
  if ∀ p ∈ pts, inbound s p then s
  else
    let o := output s
    let outb := pts.filter fun p => decide (¬ inbound s p)
    let lo0 : Vec3 := ⟨o.xlo, o.ylo, o.zlo⟩
    let m0 : ℝ := if pbc.1 then 0 else 1
    let m1 : ℝ := if pbc.2.1 then 0 else 1
    let m2 : ℝ := if pbc.2.2 then 0 else 1
    let lo1 : Vec3 :=
      ⟨listMinFrom lo0.x (outb.map fun p => p.x - 1e-7) * m0,
       listMinFrom lo0.y (outb.map fun p => p.y - 1e-7) * m1,
       listMinFrom lo0.z (outb.map fun p => p.z - 1e-7) * m2⟩
    let sh0 := dotV o.u.r0 (lo1 - lo0)
    let sh1 := dotV o.u.r1 (lo1 - lo0)
    let sh2 := dotV o.u.r2 (lo1 - lo0)
    let dmax0 := listMax1 (outb.map fun p => dotV o.u.r0 (p - lo0))
    let dmax1 := listMax1 (outb.map fun p => dotV o.u.r1 (p - lo0))
    let dmax2 := listMax1 (outb.map fun p => dotV o.u.r2 (p - lo0))
    let sc0 := max ((dmax0 + 1e-7) * m0) (Real.sqrt (dotV o.v.r0 o.v.r0)) - sh0
    let sc1 := max ((dmax1 + 1e-7) * m1) (Real.sqrt (dotV o.v.r1 o.v.r1)) - sh1
    let sc2 := max ((dmax2 + 1e-7) * m2) (Real.sqrt (dotV o.v.r2 o.v.r2)) - sh2
    let f := input_basis ⟨sc0 • o.u.r0, sc1 • o.u.r1, sc2 • o.u.r2⟩
    { s with x0 := lo1.x, y0 := lo1.y, z0 := lo1.z,
             lx := f.lx, ly := f.ly, lz := f.lz,
             alpha := f.alpha, beta := f.beta, gamma := f.gamma }

/-! ## Ghost images (`Box.ghost`) -/

/-- Squared distance to the origin (`np.sum(q ** 2, axis=1)` per row). -/
def sqnorm (v : Vec3) : ℝ := dotV v v

/-- `Box.ghost`'s per-point translation sign: `-1` when the negatively
shifted image is at least as near (`np.argmin` keeps the first minimum),
else `+1`. -/
def ghostSide (shift : Vec3) (p : Vec3) : ℝ :=
  if sqnorm (p - shift) ≤ sqnorm (p + shift) then -1 else 1

/-- `Box.ghost` as the finite sequence of its yields, in order: the
diagonal copy, three single-axis copies, three pairwise-axis copies. -/
def ghost (s : BoxInput) (pts : List Vec3) (pbc : Bool × Bool × Bool) :
    List (List Vec3) :=
  let o := output s
  let L0 := o.a * (if pbc.1 then 1 else 0)
  let L1 := o.b * (if pbc.2.1 then 1 else 0)
  let L2 := o.c * (if pbc.2.2 then 1 else 0)
  let diag := L0 • o.u.r0 + L1 • o.u.r1 + L2 • o.u.r2
  [pts.map fun p => p + ghostSide diag p • diag,
   pts.map fun p => p + ghostSide diag p • (L0 • o.u.r0),
   pts.map fun p => p + ghostSide diag p • (L1 • o.u.r1),
   pts.map fun p => p + ghostSide diag p • (L2 • o.u.r2),
   pts.map fun p => p + ghostSide diag p • (L0 • o.u.r0 + L1 • o.u.r1),
   pts.map fun p => p + ghostSide diag p • (L1 • o.u.r1 + L2 • o.u.r2),
   pts.map fun p => p + ghostSide diag p • (L2 • o.u.r2 + L0 • o.u.r0)]

end Box

/-- The numeric content of the default `Box()` store. -/
def initBox : BoxInput := ⟨0, 0, 0, 1, 1, 1, 90, 90, 90, false⟩

/-- A fully periodic orthogonal box of edge 10 with `lo` at the origin. -/
def box10 : BoxInput := ⟨0, 0, 0, 10, 10, 10, 90, 90, 90, false⟩

end

/-! ## Helper lemmas: the dict model -/

namespace BoxInputDict

theorem setKey_self (d : Store) (k : String) (v : BVal) : setKey d k v k = some v := by
  simp [setKey]

theorem setKey_other (d : Store) (k k2 : String) (v : BVal) (h : k2 ≠ k) :
    setKey d k v k2 = d k2 := by
  simp [setKey, h]

theorem anyAngleNe90_eq (d : Store) :
    anyAngleNe90 d =
      (((d "alpha").map ne90).getD false || ((d "beta").map ne90).getD false ||
        ((d "gamma").map ne90).getD false) := by
  simp [anyAngleNe90, abg, List.any_cons, List.any_nil, Bool.or_assoc]

theorem applyPairs_cons (d : Store) (kv : String × BVal) (t : List (String × BVal)) :
    applyPairs d (kv :: t) = applyPairs (setKey d kv.1 kv.2) t := rfl

theorem applyPairs_isSome (d : Store) (kvs : List (String × BVal)) (k : String) :
    (applyPairs d kvs k).isSome = ((d k).isSome || decide (k ∈ kvs.map Prod.fst)) := by
  induction kvs generalizing d with
  | nil => simp [applyPairs]
  | cons kv t ih =>
    rw [applyPairs_cons, ih]
    by_cases h : k = kv.1
    · subst h
      simp [setKey_self]
    · rw [setKey_other _ _ _ _ h]
      have hb : (k == kv.1) = false := beq_eq_false_iff_ne.mpr h
      simp [List.mem_cons, h, hb]

end BoxInputDict

theorem storeOfList_isSome (l : List (String × BVal)) (k : String) :
    (storeOfList l k).isSome ↔ k ∈ l.map Prod.fst := by
  simp [storeOfList, List.find?_isSome, List.mem_map]

theorem initStore_valid : validStore initStore := by
  intro k
  rw [boxFieldNames, initStore, storeOfList_isSome]

/-! ## C9: key policy of the canonical store -/

/-- C9.  A single-field write with a key outside the closed field set
signals an invalid-parameter error (the store is untouched, since the check
precedes the mutation), whereas a bulk update succeeds: it keeps the store
on exactly the closed field set, applies the recognized keys, drops the
unrecognized keys, and reports exactly the unrecognized keys in the
warning list. -/
theorem boxinputdict_key_policy (d : Store) (hd : validStore d) (k : String) (v : BVal)
    (kvs : List (String × BVal)) :
    (k ∉ boxFieldNames →
      BoxInputDict.setitem d k v = .error (k ++ " is not a Box input parameter")) ∧
    validStore (BoxInputDict.update d kvs).1 ∧
    (∀ k2 ∈ boxFieldNames, (BoxInputDict.update d kvs).1 k2 = BoxInputDict.applyPairs d kvs k2) ∧
    (∀ k2, k2 ∉ boxFieldNames → (BoxInputDict.update d kvs).1 k2 = none) ∧
    (∀ k2, k2 ∈ (BoxInputDict.update d kvs).2 ↔ k2 ∈ kvs.map Prod.fst ∧ k2 ∉ boxFieldNames) := by
  refine ⟨?_, ?_, ?_, ?_, ?_⟩
  · intro hk
    have : ¬ (d k).isSome := by
      rw [hd k]; exact hk
    simp [BoxInputDict.setitem, Option.not_isSome_iff_eq_none.mp this]
  · intro k2
    by_cases hk2 : (d k2).isSome
    · simp only [BoxInputDict.update, hk2, if_true]
      rw [BoxInputDict.applyPairs_isSome, hk2, Bool.true_or]
      simpa using (hd k2).mp hk2
    · simp only [BoxInputDict.update, hk2, if_false]
      simpa using fun h => hk2 ((hd k2).mpr h)
  · intro k2 hk2
    have : (d k2).isSome := (hd k2).mpr hk2
    simp [BoxInputDict.update, this]
  · intro k2 hk2
    have : ¬ (d k2).isSome := fun h => hk2 ((hd k2).mp h)
    simp [BoxInputDict.update, this]
  · intro k2
    have hiff : ((d k2).isNone = true) ↔ k2 ∉ boxFieldNames := by
      rw [Option.isNone_iff_eq_none, ← Option.not_isSome_iff_eq_none]
      exact not_congr (hd k2)
    simp only [BoxInputDict.update, List.mem_dedup, List.mem_filter, hiff]

/-- Witness for C9 at a concrete store, key and update. -/
theorem boxinputdict_key_policy_witness :
    BoxInputDict.setitem initStore "foo" (.num 0) =
      .error ("foo is not a Box input parameter") ∧
    validStore (BoxInputDict.update initStore [("foo", .num 1), ("lx", .num 2)]).1 := by
  have h := boxinputdict_key_policy initStore initStore_valid "foo" (.num 0)
    [("foo", .num 1), ("lx", .num 2)]
  exact ⟨h.1 (by decide), h.2.1⟩

/-! ## C2: the tilt invariant under writes -/

/-- Counterexample to C2 as stated: a bulk update goes through the raw
`dict.update`, which bypasses `_check_allow_tilt`, so setting an angle to
60 together with `allow_tilt = False` in the same bulk update leaves
`allow_tilt = False` stored, violating invariant I1. -/
theorem bulk_update_tilt_counterexample :
    ((BoxInputDict.update initStore [("alpha", .num 60), ("allow_tilt", .bool false)]).1 "alpha"
        = some (.num 60)) ∧
    ((BoxInputDict.update initStore
        [("alpha", .num 60), ("allow_tilt", .bool false)]).1 "allow_tilt"
        = some (.bool false)) ∧
    ¬ BoxInputDict.I1
        (BoxInputDict.update initStore [("alpha", .num 60), ("allow_tilt", .bool false)]).1 := by
  refine ⟨by decide, by decide, fun h => ?_⟩
  exact absurd (h (by decide)) (by decide)

/-- C2 (amended).  Invariant I1 is preserved by every accepted single-field
write (`__setitem__` / `__setattr__`): writing a non-90 angle forces
`allow_tilt` true, and writing a falsy `allow_tilt` while an angle is
non-90 forces it back true.  (Bulk updates bypass this check; see the
counterexample.) -/
theorem setitem_preserves_tilt_invariant (d : Store) (k : String) (v : BVal) (d2 : Store)
    (hI : BoxInputDict.I1 d) (h : BoxInputDict.setitem d k v = .ok d2) :
    BoxInputDict.I1 d2 := by
  by_cases hk : (d k).isSome
  · simp only [BoxInputDict.setitem, hk, if_true, Except.ok.injEq] at h
    subst h
    set e := BoxInputDict.setKey d k v with he
    unfold BoxInputDict.checkAllowTilt
    by_cases h1 : (BoxInputDict.abg.contains k && BoxInputDict.ne90 v) = true
    · rw [if_pos h1]
      intro _
      rw [BoxInputDict.setKey_self]
      rfl
    · rw [if_neg h1]
      by_cases h2 : (k == "allow_tilt" &&
          !(BoxInputDict.truthy ((e "allow_tilt").getD (.bool false)))) = true
      · rw [if_pos h2]
        by_cases h3 : BoxInputDict.anyAngleNe90 e = true
        · rw [if_pos h3]
          intro _
          rw [BoxInputDict.setKey_self]
          rfl
        · rw [if_neg h3]
          intro hA
          exact absurd hA h3
      · rw [if_neg h2]
        intro hA
        simp only [Bool.and_eq_true, beq_iff_eq, Bool.not_eq_true', not_and,
          Bool.not_eq_false] at h2
        by_cases hkt : k = "allow_tilt"
        · exact h2 hkt
        · have het : e "allow_tilt" = d "allow_tilt" :=
            BoxInputDict.setKey_other d k "allow_tilt" v (fun hx => hkt hx.symm)
          rw [het]
          apply hI
          rw [BoxInputDict.anyAngleNe90_eq] at hA ⊢
          have habg : BoxInputDict.abg.contains k = true → BoxInputDict.ne90 v = false := by
            intro hmem
            cases hv : BoxInputDict.ne90 v
            · rfl
            · exact absurd (by rw [Bool.and_eq_true]; exact ⟨hmem, hv⟩) h1
          by_cases hka : k = "alpha"
          · subst hka
            have h90 := habg (by decide)
            rw [he] at hA
            rw [BoxInputDict.setKey_self,
              BoxInputDict.setKey_other d _ "beta" v (by decide),
              BoxInputDict.setKey_other d _ "gamma" v (by decide)] at hA
            simp [h90] at hA
            rcases hA with hx | hx <;> simp [hx]
          · by_cases hkb : k = "beta"
            · subst hkb
              have h90 := habg (by decide)
              rw [he] at hA
              rw [BoxInputDict.setKey_self,
                BoxInputDict.setKey_other d _ "alpha" v (by decide),
                BoxInputDict.setKey_other d _ "gamma" v (by decide)] at hA
              simp [h90] at hA
              rcases hA with hx | hx <;> simp [hx]
            · by_cases hkg : k = "gamma"
              · subst hkg
                have h90 := habg (by decide)
                rw [he] at hA
                rw [BoxInputDict.setKey_self,
                  BoxInputDict.setKey_other d _ "alpha" v (by decide),
                  BoxInputDict.setKey_other d _ "beta" v (by decide)] at hA
                simp [h90] at hA
                rcases hA with hx | hx <;> simp [hx]
              · rw [he] at hA
                rw [BoxInputDict.setKey_other d _ "alpha" v (fun hx => hka hx.symm),
                  BoxInputDict.setKey_other d _ "beta" v (fun hx => hkb hx.symm),
                  BoxInputDict.setKey_other d _ "gamma" v (fun hx => hkg hx.symm)] at hA
                exact hA
  · simp [BoxInputDict.setitem, Option.not_isSome_iff_eq_none.mp hk] at h

/-- Witness for C2's amended theorem: writing `alpha := 60` to the default
store is accepted and the result satisfies I1. -/
theorem setitem_preserves_tilt_invariant_witness :
    ∃ d2, BoxInputDict.setitem initStore "alpha" (.num 60) = .ok d2 ∧ BoxInputDict.I1 d2 := by
  refine ⟨_, rfl, setitem_preserves_tilt_invariant initStore "alpha" (.num 60) _ ?_ rfl⟩
  intro h
  exact absurd h (by decide)

/-! ## C3: the type-guessing classifier -/

/-- C3.  The classifier follows exactly the length-9 and length-6 decision
chains of `_guess_type`, errors out on any other length, and errors out on
an absent input. -/
theorem guess_type_spec (l : List ℚ) :
    (l.length = 9 →
      ((l.getD 0 0 < l.getD 1 0 ∧ l.getD 2 0 < l.getD 3 0 ∧ l.getD 4 0 < l.getD 5 0) →
          guessType (some l) = .ok "lmpdata") ∧
      (¬ (l.getD 0 0 < l.getD 1 0 ∧ l.getD 2 0 < l.getD 3 0 ∧ l.getD 4 0 < l.getD 5 0) →
        (l.getD 0 0 < l.getD 1 0 ∧ l.getD 3 0 < l.getD 4 0 ∧ l.getD 6 0 < l.getD 7 0) →
          guessType (some l) = .ok "lmpdump") ∧
      (¬ (l.getD 0 0 < l.getD 1 0 ∧ l.getD 2 0 < l.getD 3 0 ∧ l.getD 4 0 < l.getD 5 0) →
        ¬ (l.getD 0 0 < l.getD 1 0 ∧ l.getD 3 0 < l.getD 4 0 ∧ l.getD 6 0 < l.getD 7 0) →
          guessType (some l) = .ok "basis")) ∧
    (l.length = 6 →
      ((l.getD 1 0 ≤ 1 ∧ l.getD 3 0 ≤ 1 ∧ l.getD 4 0 ≤ 1) →
          guessType (some l) = .ok "dcd") ∧
      (¬ (l.getD 1 0 ≤ 1 ∧ l.getD 3 0 ≤ 1 ∧ l.getD 4 0 ≤ 1) →
          guessType (some l) = .ok "lattice")) ∧
    (l.length ≠ 9 → l.length ≠ 6 →
      guessType (some l) = .error "Incorrect Box input parameters") ∧
    guessType (none : Option (List ℚ)) = .error "Missing Box input parameters" := by
  refine ⟨fun h9 => ⟨fun c1 => ?_, fun nc1 c2 => ?_, fun nc1 nc2 => ?_⟩,
    fun h6 => ⟨fun c1 => ?_, fun nc1 => ?_⟩, fun n9 n6 => ?_, rfl⟩
  · simp only [guessType]
    rw [if_pos h9, if_pos c1]
  · simp only [guessType]
    rw [if_pos h9, if_neg nc1, if_pos c2]
  · simp only [guessType]
    rw [if_pos h9, if_neg nc1, if_neg nc2]
  · simp only [guessType]
    rw [if_neg (by omega : ¬ l.length = 9), if_pos h6, if_pos c1]
  · simp only [guessType]
    rw [if_neg (by omega : ¬ l.length = 9), if_pos h6, if_neg nc1]
  · simp only [guessType]
    rw [if_neg n9, if_neg n6]

/-- Witness for C3 at the spec's LmpData example array. -/
theorem guess_type_spec_witness :
    guessType (some [0, 10, 0, 10, 0, 10, 0, 0, 0]) = .ok "lmpdata" :=
  ((guess_type_spec [0, 10, 0, 10, 0, 10, 0, 0, 0]).1 (by decide)).1 (by norm_num)

/-! ## C10: the derived view forces the tilt flag -/

/-- C10.  The derived output reports `allow_tilt` whenever a stored angle
differs from 90, regardless of the stored flag (the view ORs the flag with
the non-orthogonality condition). -/
theorem output_allow_tilt_forced (s : BoxInput)
    (h : s.alpha ≠ 90 ∨ s.beta ≠ 90 ∨ s.gamma ≠ 90) :
    (Box.output s).allow_tilt := by
  simp only [Box.output]
  exact Or.inr h

/-- Witness for C10: a store with `alpha = 60` and `allow_tilt = false`. -/
theorem output_allow_tilt_forced_witness :
    (Box.output ⟨0, 0, 0, 1, 1, 1, 60, 90, 90, false⟩).allow_tilt :=
  output_allow_tilt_forced _ (Or.inl (by norm_num))

/-! ## Helper lemmas: geometry of orthogonal boxes -/

theorem cos_90_deg : Real.cos (90 * deg2rad) = 0 := by
  have h : (90 : ℝ) * deg2rad = Real.pi / 2 := by
    rw [deg2rad]; ring
  rw [h, Real.cos_pi_div_two]

theorem normalizeV_xaxis (t : ℝ) (h : 0 < t) : normalizeV ⟨t, 0, 0⟩ = ⟨1, 0, 0⟩ := by
  have hn : normV ⟨t, 0, 0⟩ = t := by
    simp only [normV]
    norm_num [Real.sqrt_sq h.le]
  simp only [normalizeV, hn, if_neg (ne_of_gt h)]
  norm_num [div_self (ne_of_gt h)]

theorem normalizeV_yaxis (t : ℝ) (h : 0 < t) : normalizeV ⟨0, t, 0⟩ = ⟨0, 1, 0⟩ := by
  have hn : normV ⟨0, t, 0⟩ = t := by
    simp only [normV]
    norm_num [Real.sqrt_sq h.le]
  simp only [normalizeV, hn, if_neg (ne_of_gt h)]
  norm_num [div_self (ne_of_gt h)]

theorem normalizeV_zaxis (t : ℝ) (h : 0 < t) : normalizeV ⟨0, 0, t⟩ = ⟨0, 0, 1⟩ := by
  have hn : normV ⟨0, 0, t⟩ = t := by
    simp only [normV]
    norm_num [Real.sqrt_sq h.le]
  simp only [normalizeV, hn, if_neg (ne_of_gt h)]
  norm_num [div_self (ne_of_gt h)]

theorem cross_e1_e2 : cross ⟨0, 1, 0⟩ ⟨0, 0, 1⟩ = (⟨1, 0, 0⟩ : Vec3) := by
  have h : crossRaw ⟨0, 1, 0⟩ ⟨0, 0, 1⟩ = (⟨1, 0, 0⟩ : Vec3) := by
    simp only [crossRaw]
    norm_num
  rw [cross, h, normalizeV_xaxis 1 one_pos]

theorem cross_e2_e0 : cross ⟨0, 0, 1⟩ ⟨1, 0, 0⟩ = (⟨0, 1, 0⟩ : Vec3) := by
  have h : crossRaw ⟨0, 0, 1⟩ ⟨1, 0, 0⟩ = (⟨0, 1, 0⟩ : Vec3) := by
    simp only [crossRaw]
    norm_num
  rw [cross, h, normalizeV_yaxis 1 one_pos]

theorem cross_e0_e1 : cross ⟨1, 0, 0⟩ ⟨0, 1, 0⟩ = (⟨0, 0, 1⟩ : Vec3) := by
  have h : crossRaw ⟨1, 0, 0⟩ ⟨0, 1, 0⟩ = (⟨0, 0, 1⟩ : Vec3) := by
    simp only [crossRaw]
    norm_num
  rw [cross, h, normalizeV_zaxis 1 one_pos]

/-- The derived view of an orthogonal box: diagonal basis, identity `u`
and `bn`. -/
theorem output_orth (s : BoxInput) (ha : s.alpha = 90) (hb : s.beta = 90)
    (hg : s.gamma = 90) (hx : 0 < s.lx) (hy : 0 < s.ly) (hz : 0 < s.lz) :
    Box.output s =
      { xlo := s.x0, xhi := s.x0 + s.lx, ylo := s.y0, yhi := s.y0 + s.ly,
        zlo := s.z0, zhi := s.z0 + s.lz,
        allow_tilt := s.allow_tilt = true ∨ s.alpha ≠ 90 ∨ s.beta ≠ 90 ∨ s.gamma ≠ 90,
        cos_alpha := 0, cos_beta := 0, cos_gamma := 0,
        a := s.lx, b := s.ly, c := s.lz, xy := 0, xz := 0, yz := 0,
        v := ⟨⟨s.lx, 0, 0⟩, ⟨0, s.ly, 0⟩, ⟨0, 0, s.lz⟩⟩,
        u := ⟨⟨1, 0, 0⟩, ⟨0, 1, 0⟩, ⟨0, 0, 1⟩⟩,
        bn := ⟨⟨1, 0, 0⟩, ⟨0, 1, 0⟩, ⟨0, 0, 1⟩⟩,
        x0 := s.x0, y0 := s.y0, z0 := s.z0, lx := s.lx, ly := s.ly, lz := s.lz,
        alpha := s.alpha, beta := s.beta, gamma := s.gamma } := by
  have hu : normalizeM ⟨⟨s.lx, 0, 0⟩, ⟨0, s.ly, 0⟩, ⟨0, 0, s.lz⟩⟩ =
      ⟨⟨1, 0, 0⟩, ⟨0, 1, 0⟩, ⟨0, 0, 1⟩⟩ := by
    simp [normalizeM, normalizeV_xaxis _ hx, normalizeV_yaxis _ hy, normalizeV_zaxis _ hz]
  simp only [Box.output, ha, hb, hg, cos_90_deg]
  norm_num [Real.sqrt_one, hu, cross_e1_e2, cross_e2_e0, cross_e0_e1]

/-- The six face distances against an orthogonal box. -/
theorem dist6_orth (s : BoxInput) (ha : s.alpha = 90) (hb : s.beta = 90)
    (hg : s.gamma = 90) (hx : 0 < s.lx) (hy : 0 < s.ly) (hz : 0 < s.lz) (p : Vec3) :
    Box.dist6 s p =
      ⟨p.x - s.x0, p.y - s.y0, p.z - s.z0,
       s.x0 + s.lx - p.x, s.y0 + s.ly - p.y, s.z0 + s.lz - p.z⟩ := by
  simp only [Box.dist6, output_orth s ha hb hg hx hy hz, dotV, Vec3.sub_x, Vec3.sub_y,
    Vec3.sub_z, Vec3.add_x, Vec3.add_y, Vec3.add_z]
  rw [Box.Dist6.mk.injEq]
  refine ⟨by ring, by ring, by ring, by ring, by ring, by ring⟩

/-- Containment against an orthogonal box is the componentwise interval
check. -/
theorem inbound_orth_iff (s : BoxInput) (ha : s.alpha = 90) (hb : s.beta = 90)
    (hg : s.gamma = 90) (hx : 0 < s.lx) (hy : 0 < s.ly) (hz : 0 < s.lz) (p : Vec3) :
    Box.inbound s p ↔
      (s.x0 ≤ p.x ∧ p.x ≤ s.x0 + s.lx ∧ s.y0 ≤ p.y ∧ p.y ≤ s.y0 + s.ly ∧
        s.z0 ≤ p.z ∧ p.z ≤ s.z0 + s.lz) := by
  unfold Box.inbound Box.minDist
  rw [dist6_orth s ha hb hg hx hy hz p]
  simp only [le_min_iff, sub_nonneg]
  constructor
  · rintro ⟨⟨⟨⟨⟨h1, h2⟩, h3⟩, h4⟩, h5⟩, h6⟩
    exact ⟨h1, by linarith, h2, by linarith, h3, by linarith⟩
  · rintro ⟨h1, h2, h3, h4, h5, h6⟩
    exact ⟨⟨⟨⟨⟨h1, h3⟩, h5⟩, by linarith⟩, by linarith⟩, by linarith⟩

/-! ## C4: containment is the sign of the minimum face distance -/

/-- C4.  A point is inbound iff the minimum of its six signed face
distances is non-negative, equivalently iff all six are non-negative; in
particular a point with one face distance exactly zero and the others
non-negative is inbound (the boundary is inclusive). -/
theorem bbcheck_inbound_iff (s : BoxInput) (p : Vec3) :
    (Box.inbound s p ↔ 0 ≤ Box.minDist s p) ∧
    (Box.inbound s p ↔
      (0 ≤ (Box.dist6 s p).xlo ∧ 0 ≤ (Box.dist6 s p).ylo ∧ 0 ≤ (Box.dist6 s p).zlo ∧
        0 ≤ (Box.dist6 s p).xhi ∧ 0 ≤ (Box.dist6 s p).yhi ∧ 0 ≤ (Box.dist6 s p).zhi)) ∧
    (((Box.dist6 s p).xlo = 0 ∨ (Box.dist6 s p).ylo = 0 ∨ (Box.dist6 s p).zlo = 0 ∨
        (Box.dist6 s p).xhi = 0 ∨ (Box.dist6 s p).yhi = 0 ∨ (Box.dist6 s p).zhi = 0) →
      (0 ≤ (Box.dist6 s p).xlo ∧ 0 ≤ (Box.dist6 s p).ylo ∧ 0 ≤ (Box.dist6 s p).zlo ∧
        0 ≤ (Box.dist6 s p).xhi ∧ 0 ≤ (Box.dist6 s p).yhi ∧ 0 ≤ (Box.dist6 s p).zhi) →
      Box.inbound s p) := by
  have hiff : Box.inbound s p ↔
      (0 ≤ (Box.dist6 s p).xlo ∧ 0 ≤ (Box.dist6 s p).ylo ∧ 0 ≤ (Box.dist6 s p).zlo ∧
        0 ≤ (Box.dist6 s p).xhi ∧ 0 ≤ (Box.dist6 s p).yhi ∧ 0 ≤ (Box.dist6 s p).zhi) := by
    unfold Box.inbound Box.minDist
    simp only [le_min_iff]
    tauto
  exact ⟨Iff.rfl, hiff, fun _ h6 => hiff.mpr h6⟩

/-- Witness for C4: the point `(0, 1/2, 1/2)` lies exactly on the `xlo`
face of the default unit box and is classified inbound. -/
theorem bbcheck_inbound_iff_witness : Box.inbound initBox ⟨0, 1/2, 1/2⟩ := by
  have hd := dist6_orth initBox rfl rfl rfl (by norm_num [initBox]) (by norm_num [initBox])
    (by norm_num [initBox]) ⟨0, 1/2, 1/2⟩
  refine (bbcheck_inbound_iff initBox ⟨0, 1/2, 1/2⟩).2.2 (Or.inl ?_) ?_ <;>
    rw [hd] <;> norm_num [initBox]

/-! ## C6: the ghost generator -/

/-- C6.  With full three-axis periodicity the ghost generator yields
exactly 7 translated copies of the point set, in order: the diagonal copy
with the per-point nearest-image sign, then the three single-axis copies,
then the three pairwise-axis copies, all with the same per-point sign; and
it is a pure function, so the same inputs yield the same sequence. -/
theorem ghost_spec (s : BoxInput) (pts : List Vec3) :
    (Box.ghost s pts (true, true, true)).length = 7 ∧
    Box.ghost s pts (true, true, true) =
      (let o := Box.output s
       let D := o.a • o.u.r0 + o.b • o.u.r1 + o.c • o.u.r2
       [pts.map fun p => p + Box.ghostSide D p • D,
        pts.map fun p => p + Box.ghostSide D p • (o.a • o.u.r0),
        pts.map fun p => p + Box.ghostSide D p • (o.b • o.u.r1),
        pts.map fun p => p + Box.ghostSide D p • (o.c • o.u.r2),
        pts.map fun p => p + Box.ghostSide D p • (o.a • o.u.r0 + o.b • o.u.r1),
        pts.map fun p => p + Box.ghostSide D p • (o.b • o.u.r1 + o.c • o.u.r2),
        pts.map fun p => p + Box.ghostSide D p • (o.c • o.u.r2 + o.a • o.u.r0)]) ∧
    Box.ghost s pts (true, true, true) = Box.ghost s pts (true, true, true) := by
  refine ⟨rfl, ?_, rfl⟩
  simp [Box.ghost]

/-! ## C5: periodic wrap -/

theorem sqrt_dotV_xaxis (t : ℝ) (h : 0 ≤ t) :
    Real.sqrt (dotV ⟨t, 0, 0⟩ ⟨t, 0, 0⟩) = t := by
  have hd : dotV ⟨t, 0, 0⟩ ⟨t, 0, 0⟩ = t * t := by simp [dotV]
  rw [hd, Real.sqrt_mul_self h]

theorem sqrt_dotV_yaxis (t : ℝ) (h : 0 ≤ t) :
    Real.sqrt (dotV ⟨0, t, 0⟩ ⟨0, t, 0⟩) = t := by
  have hd : dotV ⟨0, t, 0⟩ ⟨0, t, 0⟩ = t * t := by simp [dotV]
  rw [hd, Real.sqrt_mul_self h]

theorem sqrt_dotV_zaxis (t : ℝ) (h : 0 ≤ t) :
    Real.sqrt (dotV ⟨0, 0, t⟩ ⟨0, 0, t⟩) = t := by
  have hd : dotV ⟨0, 0, t⟩ ⟨0, 0, t⟩ = t * t := by simp [dotV]
  rw [hd, Real.sqrt_mul_self h]

theorem repCount_nonneg_dist (d n : ℝ) (b : Bool) (h : 0 ≤ d) :
    Box.repCount d n b = 0 := by
  simp [Box.repCount, h]

theorem repCount_neg_one_ten : Box.repCount (-1 : ℝ) 10 true = 1 := by
  have hfl : ⌊(-1 : ℝ) / 10⌋ = -1 := by
    rw [Int.floor_eq_iff]
    norm_num
  rw [Box.repCount, if_neg (by norm_num), hfl]
  norm_num

/-- C5.  For the fully periodic orthogonal box of edge 10 at the origin,
the point `(11,5,5)` wraps to `(1,5,5)`, the wrapped point is inbound, and
wrap is the identity whenever every input point is inbound (the model is
pure, so the input point set is never mutated). -/
theorem wrap_spec :
    Box.wrap box10 [⟨11, 5, 5⟩] (true, true, true) = [⟨1, 5, 5⟩] ∧
    Box.inbound box10 ⟨1, 5, 5⟩ ∧
    (∀ (s : BoxInput) (pts : List Vec3) (pbc : Bool × Bool × Bool),
      (∀ p ∈ pts, Box.inbound s p) → Box.wrap s pts pbc = pts) := by
  have h10 : (0 : ℝ) < box10.lx := by norm_num [box10]
  have hout := output_orth box10 rfl rfl rfl h10 h10 h10
  have hd : Box.dist6 box10 ⟨11, 5, 5⟩ = ⟨11, 5, 5, -1, 5, 5⟩ := by
    rw [dist6_orth box10 rfl rfl rfl h10 h10 h10]
    norm_num [box10]
  have hnin : ¬ Box.inbound box10 ⟨11, 5, 5⟩ := by
    rw [inbound_orth_iff box10 rfl rfl rfl h10 h10 h10]
    norm_num [box10]
  refine ⟨?_, ?_, ?_⟩
  · have hcond : ¬ ∀ p ∈ [(⟨11, 5, 5⟩ : Vec3)], Box.inbound box10 p :=
      fun hall => hnin (hall _ (by simp))
    have hws : Box.wrapShift box10 (true, true, true) ⟨11, 5, 5⟩ = ⟨-10, 0, 0⟩ := by
      simp only [Box.wrapShift, hout, hd]
      rw [show box10.lx = 10 from rfl, show box10.ly = 10 from rfl,
        show box10.lz = 10 from rfl]
      rw [sqrt_dotV_xaxis 10 (by norm_num), sqrt_dotV_yaxis 10 (by norm_num),
        sqrt_dotV_zaxis 10 (by norm_num)]
      rw [repCount_nonneg_dist 11 10 true (by norm_num),
        repCount_nonneg_dist 5 10 true (by norm_num), repCount_neg_one_ten]
      apply Vec3.ext <;> simp
    simp only [Box.wrap]
    rw [if_neg hcond]
    simp only [List.map_cons, List.map_nil, hws]
    have : (⟨11, 5, 5⟩ : Vec3) + ⟨-10, 0, 0⟩ = ⟨1, 5, 5⟩ := by
      apply Vec3.ext <;> norm_num
    rw [this]
  · rw [inbound_orth_iff box10 rfl rfl rfl h10 h10 h10]
    norm_num [box10]
  · intro s pts pbc h
    simp only [Box.wrap]
    rw [if_pos h]

/-- Witness for C5's universal part at a concrete inbound point set. -/
theorem wrap_spec_witness :
    Box.wrap box10 [(⟨1, 5, 5⟩ : Vec3)] (true, true, true) = [⟨1, 5, 5⟩] := by
  refine wrap_spec.2.2 box10 [⟨1, 5, 5⟩] (true, true, true) ?_
  intro p hp
  rw [List.mem_singleton] at hp
  subst hp
  exact wrap_spec.2.1

/-! ## C8: extend on periodic axes -/

theorem dotV_e0 (w : Vec3) : dotV ⟨1, 0, 0⟩ w = w.x := by simp [dotV]

theorem dotV_e1 (w : Vec3) : dotV ⟨0, 1, 0⟩ w = w.y := by simp [dotV]

theorem dotV_e2 (w : Vec3) : dotV ⟨0, 0, 1⟩ w = w.z := by simp [dotV]

theorem arccos_zero_deg : Real.arccos 0 * rad2deg = 90 := by
  rw [Real.arccos_zero, rad2deg]
  field_simp
  ring

/-- `_input_basis` on a positively scaled diagonal frame. -/
theorem input_basis_scaled_axes (t0 t1 t2 : ℝ) (h0 : 0 < t0) (h1 : 0 < t1) (h2 : 0 < t2) :
    Box.input_basis ⟨t0 • ⟨1, 0, 0⟩, t1 • ⟨0, 1, 0⟩, t2 • ⟨0, 0, 1⟩⟩ =
      { lx := t0, ly := t1, lz := t2, alpha := 90, beta := 90, gamma := 90 } := by
  have hv : (⟨t0 • ⟨1, 0, 0⟩, t1 • ⟨0, 1, 0⟩, t2 • ⟨0, 0, 1⟩⟩ : Mat3) =
      ⟨⟨t0, 0, 0⟩, ⟨0, t1, 0⟩, ⟨0, 0, t2⟩⟩ := by
    refine Mat3.ext ?_ ?_ ?_ <;> apply Vec3.ext <;> simp
  rw [hv]
  simp only [Box.input_basis, normalizeM, normalizeV_xaxis _ h0, normalizeV_yaxis _ h1,
    normalizeV_zaxis _ h2]
  rw [LatticeFields.mk.injEq]
  refine ⟨rfl, rfl, rfl, ?_, ?_, ?_⟩ <;>
    · rw [show dotV _ _ = 0 by simp [dotV]]
      exact arccos_zero_deg

/-- Counterexample to C8 as stated: for a fully periodic orthogonal box
whose origin has `x0 = 5`, one outbound point makes `extend` *move* the
low end of the periodic x axis to 0 (the source multiplies the new low
corner by the `~pbc` mask, zeroing periodic components instead of keeping
them). -/
theorem extend_periodic_origin_counterexample :
    (Box.extend ⟨5, 0, 0, 1, 1, 1, 90, 90, 90, false⟩ [⟨10, 1/2, 1/2⟩]
      (true, true, true)).x0 = 0 ∧
    (⟨5, 0, 0, 1, 1, 1, 90, 90, 90, false⟩ : BoxInput).x0 = 5 := by
  constructor
  · have hnin : ¬ Box.inbound ⟨5, 0, 0, 1, 1, 1, 90, 90, 90, false⟩ ⟨10, 1/2, 1/2⟩ := by
      rw [inbound_orth_iff _ rfl rfl rfl (by norm_num) (by norm_num) (by norm_num)]
      norm_num
    have hmut : ¬ ∀ p ∈ [(⟨10, 1/2, 1/2⟩ : Vec3)],
        Box.inbound ⟨5, 0, 0, 1, 1, 1, 90, 90, 90, false⟩ p :=
      fun hall => hnin (hall _ (by simp))
    simp only [Box.extend]
    rw [if_neg hmut]
    simp
  · rfl

/-- C8 (amended).  Whenever `extend` actually mutates, each axis flagged
periodic gets its origin component *set to zero* — for every box, tilted
or not, since the `~pbc` mask multiply precedes any geometry (hence the
component is unchanged exactly when it already was zero); and for an
orthogonal box whose origin component along the periodic axis is zero,
the length along that axis is left exactly at its current value (never
grown). -/
theorem extend_periodic_axis_spec (s : BoxInput) (pts : List Vec3) (pbc : Bool × Bool × Bool)
    (hmut : ¬ ∀ p ∈ pts, Box.inbound s p) :
    ((pbc.1 = true → (Box.extend s pts pbc).x0 = 0) ∧
     (pbc.2.1 = true → (Box.extend s pts pbc).y0 = 0) ∧
     (pbc.2.2 = true → (Box.extend s pts pbc).z0 = 0)) ∧
    (s.alpha = 90 → s.beta = 90 → s.gamma = 90 →
      0 < s.lx → 0 < s.ly → 0 < s.lz →
      (pbc.1 = true → s.x0 = 0 → (Box.extend s pts pbc).lx = s.lx) ∧
      (pbc.2.1 = true → s.y0 = 0 → (Box.extend s pts pbc).ly = s.ly) ∧
      (pbc.2.2 = true → s.z0 = 0 → (Box.extend s pts pbc).lz = s.lz)) := by
  constructor
  · simp only [Box.extend]
    rw [if_neg hmut]
    exact ⟨fun h1 => by simp [h1], fun h1 => by simp [h1], fun h1 => by simp [h1]⟩
  · intro ha hb hg hx hy hz
    have hout := output_orth s ha hb hg hx hy hz
    simp only [Box.extend]
    rw [if_neg hmut]
    simp only [hout]
    refine ⟨fun h1 h0 => ?_, fun h1 h0 => ?_, fun h1 h0 => ?_⟩
    · simp [h1, Box.input_basis, dotV_e0, sqrt_dotV_xaxis s.lx hx.le, h0,
        max_eq_right hx.le]
    · simp [h1, Box.input_basis, dotV_e1, sqrt_dotV_yaxis s.ly hy.le, h0,
        max_eq_right hy.le]
    · simp [h1, Box.input_basis, dotV_e2, sqrt_dotV_zaxis s.lz hz.le, h0,
        max_eq_right hz.le]

/-! ## C7: extend encloses the points (orthogonal boxes) -/

theorem listMinFrom_cons (a h : ℝ) (t : List ℝ) :
    Box.listMinFrom a (h :: t) = Box.listMinFrom (min a h) t := rfl

theorem listMinFrom_le_init (a : ℝ) (l : List ℝ) : Box.listMinFrom a l ≤ a := by
  induction l generalizing a with
  | nil => exact le_refl a
  | cons h t ih => exact le_trans (ih (min a h)) (min_le_left a h)

theorem listMinFrom_le_mem (a : ℝ) (l : List ℝ) (x : ℝ) (hx : x ∈ l) :
    Box.listMinFrom a l ≤ x := by
  induction l generalizing a with
  | nil => cases hx
  | cons h t ih =>
    rw [listMinFrom_cons]
    rcases List.mem_cons.mp hx with rfl | hx2
    · exact le_trans (listMinFrom_le_init _ _) (min_le_right a x)
    · exact ih (min a h) hx2

theorem init_le_foldl_max (l : List ℝ) (a : ℝ) : a ≤ l.foldl max a := by
  induction l generalizing a with
  | nil => exact le_refl a
  | cons h t ih => exact le_trans (le_max_left a h) (ih (max a h))

theorem le_foldl_max (l : List ℝ) (a x : ℝ) (hx : x ∈ l) : x ≤ l.foldl max a := by
  induction l generalizing a with
  | nil => cases hx
  | cons h t ih =>
    rw [List.foldl_cons]
    rcases List.mem_cons.mp hx with rfl | hx2
    · exact le_trans (le_max_right a x) (init_le_foldl_max t (max a x))
    · exact ih (max a h) hx2

theorem le_listMax1 (l : List ℝ) (x : ℝ) (hx : x ∈ l) : x ≤ Box.listMax1 l := by
  cases l with
  | nil => cases hx
  | cons h t =>
    show x ≤ t.foldl max h
    rcases List.mem_cons.mp hx with rfl | hx2
    · exact init_le_foldl_max t x
    · exact le_foldl_max t h x hx2

open Classical in
/-- The state produced by `extend` on an orthogonal box with all axes
non-periodic, when some point is outbound. -/
theorem extend_orth_mut (s : BoxInput) (pts : List Vec3)
    (ha : s.alpha = 90) (hb : s.beta = 90) (hg : s.gamma = 90)
    (hx : 0 < s.lx) (hy : 0 < s.ly) (hz : 0 < s.lz)
    (hmut : ¬ ∀ p ∈ pts, Box.inbound s p) :
    Box.extend s pts (false, false, false) =
      { s with
        x0 := Box.listMinFrom s.x0
          ((pts.filter fun p => decide (¬ Box.inbound s p)).map fun p => p.x - 1e-7),
        y0 := Box.listMinFrom s.y0
          ((pts.filter fun p => decide (¬ Box.inbound s p)).map fun p => p.y - 1e-7),
        z0 := Box.listMinFrom s.z0
          ((pts.filter fun p => decide (¬ Box.inbound s p)).map fun p => p.z - 1e-7),
        lx := max (Box.listMax1 ((pts.filter fun p => decide (¬ Box.inbound s p)).map
            fun p => p.x - s.x0) + 1e-7) s.lx -
          (Box.listMinFrom s.x0 ((pts.filter fun p => decide (¬ Box.inbound s p)).map
            fun p => p.x - 1e-7) - s.x0),
        ly := max (Box.listMax1 ((pts.filter fun p => decide (¬ Box.inbound s p)).map
            fun p => p.y - s.y0) + 1e-7) s.ly -
          (Box.listMinFrom s.y0 ((pts.filter fun p => decide (¬ Box.inbound s p)).map
            fun p => p.y - 1e-7) - s.y0),
        lz := max (Box.listMax1 ((pts.filter fun p => decide (¬ Box.inbound s p)).map
            fun p => p.z - s.z0) + 1e-7) s.lz -
          (Box.listMinFrom s.z0 ((pts.filter fun p => decide (¬ Box.inbound s p)).map
            fun p => p.z - 1e-7) - s.z0),
        alpha := 90, beta := 90, gamma := 90 } := by
  have hout := output_orth s ha hb hg hx hy hz
  have hsc0 : 0 < max (Box.listMax1 ((pts.filter fun p => decide (¬ Box.inbound s p)).map
      fun p => p.x - s.x0) + 1e-7) s.lx -
      (Box.listMinFrom s.x0 ((pts.filter fun p => decide (¬ Box.inbound s p)).map
        fun p => p.x - 1e-7) - s.x0) := by
    have h1 := listMinFrom_le_init s.x0
      ((pts.filter fun p => decide (¬ Box.inbound s p)).map fun p => p.x - 1e-7)
    have h2 := le_max_right (Box.listMax1 ((pts.filter fun p => decide (¬ Box.inbound s p)).map
      fun p => p.x - s.x0) + 1e-7) s.lx
    linarith
  have hsc1 : 0 < max (Box.listMax1 ((pts.filter fun p => decide (¬ Box.inbound s p)).map
      fun p => p.y - s.y0) + 1e-7) s.ly -
      (Box.listMinFrom s.y0 ((pts.filter fun p => decide (¬ Box.inbound s p)).map
        fun p => p.y - 1e-7) - s.y0) := by
    have h1 := listMinFrom_le_init s.y0
      ((pts.filter fun p => decide (¬ Box.inbound s p)).map fun p => p.y - 1e-7)
    have h2 := le_max_right (Box.listMax1 ((pts.filter fun p => decide (¬ Box.inbound s p)).map
      fun p => p.y - s.y0) + 1e-7) s.ly
    linarith
  have hsc2 : 0 < max (Box.listMax1 ((pts.filter fun p => decide (¬ Box.inbound s p)).map
      fun p => p.z - s.z0) + 1e-7) s.lz -
      (Box.listMinFrom s.z0 ((pts.filter fun p => decide (¬ Box.inbound s p)).map
        fun p => p.z - 1e-7) - s.z0) := by
    have h1 := listMinFrom_le_init s.z0
      ((pts.filter fun p => decide (¬ Box.inbound s p)).map fun p => p.z - 1e-7)
    have h2 := le_max_right (Box.listMax1 ((pts.filter fun p => decide (¬ Box.inbound s p)).map
      fun p => p.z - s.z0) + 1e-7) s.lz
    linarith
  have hn0 := normalizeV_xaxis _ hsc0
  have hn1 := normalizeV_yaxis _ hsc1
  have hn2 := normalizeV_zaxis _ hsc2
  simp only [Box.extend]
  rw [if_neg hmut]
  simp only [hout, dotV_e0, dotV_e1, dotV_e2, Vec3.sub_x, Vec3.sub_y, Vec3.sub_z,
    sqrt_dotV_xaxis s.lx hx.le, sqrt_dotV_yaxis s.ly hy.le, sqrt_dotV_zaxis s.lz hz.le,
    Box.input_basis, normalizeM, reduceIte, mul_one, Bool.false_eq_true]
  rw [BoxInput.mk.injEq]
  have hsm : ∀ t : ℝ, (t • (⟨1, 0, 0⟩ : Vec3) = ⟨t, 0, 0⟩) ∧
      (t • (⟨0, 1, 0⟩ : Vec3) = ⟨0, t, 0⟩) ∧ (t • (⟨0, 0, 1⟩ : Vec3) = ⟨0, 0, t⟩) := by
    intro t
    refine ⟨?_, ?_, ?_⟩ <;> apply Vec3.ext <;> simp
  refine ⟨rfl, rfl, rfl, ?_, ?_, ?_, ?_, ?_, ?_, rfl⟩
  · rw [(hsm _).1]
  · rw [(hsm _).2.1]
  · rw [(hsm _).2.2]
  · rw [(hsm _).2.1, (hsm _).2.2, hn1, hn2]
    rw [show dotV (⟨0, 1, 0⟩ : Vec3) ⟨0, 0, 1⟩ = 0 by simp [dotV]]
    exact arccos_zero_deg
  · rw [(hsm _).1, (hsm _).2.2, hn0, hn2]
    rw [show dotV (⟨1, 0, 0⟩ : Vec3) ⟨0, 0, 1⟩ = 0 by simp [dotV]]
    exact arccos_zero_deg
  · rw [(hsm _).1, (hsm _).2.1, hn0, hn1]
    rw [show dotV (⟨1, 0, 0⟩ : Vec3) ⟨0, 1, 0⟩ = 0 by simp [dotV]]
    exact arccos_zero_deg

open Classical in
/-- C7 (amended).  For an *orthogonal* box, after `extend` with all axes
non-periodic, every point of the set is inbound in the updated box (zero
outbound on re-check); and for every box, `extend` is a no-op when all
points are already inbound.  (For triclinic boxes the enclosure part fails;
see the counterexample.) -/
theorem extend_orthogonal_encloses (s : BoxInput) (pts : List Vec3)
    (ha : s.alpha = 90) (hb : s.beta = 90) (hg : s.gamma = 90)
    (hx : 0 < s.lx) (hy : 0 < s.ly) (hz : 0 < s.lz) :
    (∀ p ∈ pts, Box.inbound (Box.extend s pts (false, false, false)) p) ∧
    (∀ (s2 : BoxInput) (pts2 : List Vec3) (pbc : Bool × Bool × Bool),
      (∀ p ∈ pts2, Box.inbound s2 p) → Box.extend s2 pts2 pbc = s2) := by
  have hnoop : ∀ (s2 : BoxInput) (pts2 : List Vec3) (pbc : Bool × Bool × Bool),
      (∀ p ∈ pts2, Box.inbound s2 p) → Box.extend s2 pts2 pbc = s2 := by
    intro s2 pts2 pbc h
    simp only [Box.extend]
    rw [if_pos h]
  refine ⟨?_, hnoop⟩
  by_cases hall : ∀ p ∈ pts, Box.inbound s p
  · rw [hnoop s pts _ hall]
    exact hall
  · rw [extend_orth_mut s pts ha hb hg hx hy hz hall]
    have heps : (0 : ℝ) < 1e-7 := by norm_num
    have f1 := listMinFrom_le_init s.x0
      ((pts.filter fun p => decide (¬ Box.inbound s p)).map fun p => p.x - 1e-7)
    have f2 := listMinFrom_le_init s.y0
      ((pts.filter fun p => decide (¬ Box.inbound s p)).map fun p => p.y - 1e-7)
    have f3 := listMinFrom_le_init s.z0
      ((pts.filter fun p => decide (¬ Box.inbound s p)).map fun p => p.z - 1e-7)
    have g1 := le_max_right (Box.listMax1 ((pts.filter fun p => decide (¬ Box.inbound s p)).map
      fun p => p.x - s.x0) + 1e-7) s.lx
    have g2 := le_max_right (Box.listMax1 ((pts.filter fun p => decide (¬ Box.inbound s p)).map
      fun p => p.y - s.y0) + 1e-7) s.ly
    have g3 := le_max_right (Box.listMax1 ((pts.filter fun p => decide (¬ Box.inbound s p)).map
      fun p => p.z - s.z0) + 1e-7) s.lz
    intro p hp
    rw [inbound_orth_iff _ rfl rfl rfl (by dsimp only; linarith) (by dsimp only; linarith)
      (by dsimp only; linarith)]
    dsimp only
    by_cases hin : Box.inbound s p
    · rw [inbound_orth_iff s ha hb hg hx hy hz] at hin
      obtain ⟨i1, i2, i3, i4, i5, i6⟩ := hin
      refine ⟨by linarith, by linarith, by linarith, by linarith, by linarith, by linarith⟩
    · have hmem : p ∈ pts.filter fun p => decide (¬ Box.inbound s p) :=
        List.mem_filter.mpr ⟨hp, decide_eq_true hin⟩
      have j1 := listMinFrom_le_mem s.x0 _ (p.x - 1e-7)
        (List.mem_map_of_mem (fun p => p.x - 1e-7) hmem)
      have j2 := listMinFrom_le_mem s.y0 _ (p.y - 1e-7)
        (List.mem_map_of_mem (fun p => p.y - 1e-7) hmem)
      have j3 := listMinFrom_le_mem s.z0 _ (p.z - 1e-7)
        (List.mem_map_of_mem (fun p => p.z - 1e-7) hmem)
      have k1 := le_listMax1 _ (p.x - s.x0)
        (List.mem_map_of_mem (fun p => p.x - s.x0) hmem)
      have k2 := le_listMax1 _ (p.y - s.y0)
        (List.mem_map_of_mem (fun p => p.y - s.y0) hmem)
      have k3 := le_listMax1 _ (p.z - s.z0)
        (List.mem_map_of_mem (fun p => p.z - s.z0) hmem)
      have m1 := le_max_left (Box.listMax1 ((pts.filter fun p => decide (¬ Box.inbound s p)).map
        fun p => p.x - s.x0) + 1e-7) s.lx
      have m2 := le_max_left (Box.listMax1 ((pts.filter fun p => decide (¬ Box.inbound s p)).map
        fun p => p.y - s.y0) + 1e-7) s.ly
      have m3 := le_max_left (Box.listMax1 ((pts.filter fun p => decide (¬ Box.inbound s p)).map
        fun p => p.z - s.z0) + 1e-7) s.lz
      refine ⟨by linarith, by linarith, by linarith, by linarith, by linarith, by linarith⟩

/-- Witness for C7's amended theorem: the default unit box extended to
reach an outbound point, which the re-check then reports inbound. -/
theorem extend_orthogonal_encloses_witness :
    Box.inbound (Box.extend initBox [⟨2, 1/2, 1/2⟩] (false, false, false)) ⟨2, 1/2, 1/2⟩ := by
  refine (extend_orthogonal_encloses initBox [⟨2, 1/2, 1/2⟩] rfl rfl rfl
    (by norm_num [initBox]) (by norm_num [initBox]) (by norm_num [initBox])).1 _ (by simp)

/-! ## Geometry of a box tilted by `alpha = 60`, `beta = gamma = 90` -/

theorem sqrt3_pos : (0 : ℝ) < Real.sqrt 3 := Real.sqrt_pos.mpr (by norm_num)

theorem sq_sqrt3 : Real.sqrt 3 ^ 2 = 3 := Real.sq_sqrt (by norm_num)

theorem sqrt3_lt : Real.sqrt 3 < 9/5 := by nlinarith [sq_sqrt3, sqrt3_pos]

theorem sqrt3_gt : (17/10 : ℝ) < Real.sqrt 3 := by nlinarith [sq_sqrt3, sqrt3_pos]

theorem cos_60_deg : Real.cos (60 * deg2rad) = 1/2 := by
  rw [show (60 : ℝ) * deg2rad = Real.pi / 3 by rw [deg2rad]; ring, Real.cos_pi_div_three]

theorem arccos_half_deg : Real.arccos (1/2) * rad2deg = 60 := by
  have h1 : Real.arccos (1/2) = Real.pi / 3 := by
    rw [← Real.cos_pi_div_three]
    exact Real.arccos_cos (by positivity) (by linarith [Real.pi_pos])
  rw [h1, rad2deg]
  field_simp
  ring

theorem sqrt34 : Real.sqrt (3/4) = Real.sqrt 3 / 2 := by
  rw [show (3/4 : ℝ) = (Real.sqrt 3 / 2) ^ 2 by rw [div_pow, sq_sqrt3]; norm_num]
  exact Real.sqrt_sq (by positivity)

theorem normV_unit_tilt : normV ⟨0, 1/2, Real.sqrt 3 / 2⟩ = 1 := by
  rw [normV]
  rw [show ((Real.sqrt 3 / 2 : ℝ)) ^ 2 = 3/4 by rw [div_pow, sq_sqrt3]; norm_num]
  norm_num [Real.sqrt_one]

theorem normV_unit_n1 : normV ⟨0, Real.sqrt 3 / 2, -(1/2)⟩ = 1 := by
  rw [normV]
  rw [show ((Real.sqrt 3 / 2 : ℝ)) ^ 2 = 3/4 by rw [div_pow, sq_sqrt3]; norm_num]
  norm_num [Real.sqrt_one]

theorem normalizeV_of_norm_one (v : Vec3) (hv : normV v = 1) : normalizeV v = v := by
  apply Vec3.ext <;> simp [normalizeV, hv]

theorem normalizeV_smul (t : ℝ) (ht : 0 < t) (v : Vec3) (hv : normV v = 1) :
    normalizeV (t • v) = v := by
  have hn : normV (t • v) = t := by
    rw [normV, Vec3.smul_x, Vec3.smul_y, Vec3.smul_z,
      show (t * v.x) ^ 2 + (t * v.y) ^ 2 + (t * v.z) ^ 2 =
        t ^ 2 * (v.x ^ 2 + v.y ^ 2 + v.z ^ 2) by ring,
      Real.sqrt_mul (sq_nonneg t), Real.sqrt_sq ht.le,
      show Real.sqrt (v.x ^ 2 + v.y ^ 2 + v.z ^ 2) = 1 from hv, mul_one]
  apply Vec3.ext <;>
    simp [normalizeV, hn, ne_of_gt ht, mul_div_assoc, mul_div_cancel_left₀]

theorem output_xlo (s : BoxInput) : (Box.output s).xlo = s.x0 := rfl

theorem output_ylo (s : BoxInput) : (Box.output s).ylo = s.y0 := rfl

theorem output_zlo (s : BoxInput) : (Box.output s).zlo = s.z0 := rfl

theorem output_v_eq (s : BoxInput) :
    (Box.output s).u = normalizeM (Box.output s).v := rfl

theorem output_bn_eq (s : BoxInput) :
    (Box.output s).bn = ⟨cross (Box.output s).u.r1 (Box.output s).u.r2,
      cross (Box.output s).u.r2 (Box.output s).u.r0,
      cross (Box.output s).u.r0 (Box.output s).u.r1⟩ := rfl

theorem output_alpha60_v (s : BoxInput) (ha : s.alpha = 60) (hb : s.beta = 90)
    (hg : s.gamma = 90) (hy : 0 < s.ly) :
    (Box.output s).v = ⟨⟨s.lx, 0, 0⟩, ⟨0, s.ly, 0⟩, ⟨0, s.lz / Real.sqrt 3, s.lz⟩⟩ := by
  simp only [Box.output, ha, hb, hg, cos_90_deg, cos_60_deg]
  rw [Mat3.mk.injEq]
  refine ⟨rfl, ?_, ?_⟩
  · apply Vec3.ext <;> norm_num
  · apply Vec3.ext
    · norm_num
    · show (s.ly / Real.sqrt (1 - 0 ^ 2) *
          (s.lz / Real.sqrt (1 - 0 ^ 2 - (1/2 - 0 * 0) ^ 2 / (1 - 0 ^ 2))) * (1/2) -
          s.ly / Real.sqrt (1 - 0 ^ 2) * 0 *
          (s.lz / Real.sqrt (1 - 0 ^ 2 - (1/2 - 0 * 0) ^ 2 / (1 - 0 ^ 2)) * 0)) / s.ly =
        s.lz / Real.sqrt 3
      rw [show (1 : ℝ) - 0 ^ 2 - (1/2 - 0 * 0) ^ 2 / (1 - 0 ^ 2) = 3/4 by norm_num, sqrt34]
      rw [show (1 : ℝ) - 0 ^ 2 = 1 by norm_num, Real.sqrt_one]
      field_simp
      ring
    · norm_num

theorem output_alpha60_u (s : BoxInput) (ha : s.alpha = 60) (hb : s.beta = 90)
    (hg : s.gamma = 90) (hx : 0 < s.lx) (hy : 0 < s.ly) (hz : 0 < s.lz) :
    (Box.output s).u = ⟨⟨1, 0, 0⟩, ⟨0, 1, 0⟩, ⟨0, 1/2, Real.sqrt 3 / 2⟩⟩ := by
  rw [output_v_eq, output_alpha60_v s ha hb hg hy]
  unfold normalizeM
  rw [Mat3.mk.injEq]
  refine ⟨normalizeV_xaxis _ hx, normalizeV_yaxis _ hy, ?_⟩
  rw [show (⟨0, s.lz / Real.sqrt 3, s.lz⟩ : Vec3) =
      (2 * s.lz / Real.sqrt 3) • ⟨0, 1/2, Real.sqrt 3 / 2⟩ by
    apply Vec3.ext <;> simp <;> field_simp <;> ring]
  exact normalizeV_smul _ (by positivity) _ normV_unit_tilt

theorem output_alpha60_bn (s : BoxInput) (ha : s.alpha = 60) (hb : s.beta = 90)
    (hg : s.gamma = 90) (hx : 0 < s.lx) (hy : 0 < s.ly) (hz : 0 < s.lz) :
    (Box.output s).bn = ⟨⟨1, 0, 0⟩, ⟨0, Real.sqrt 3 / 2, -(1/2)⟩, ⟨0, 0, 1⟩⟩ := by
  rw [output_bn_eq, output_alpha60_u s ha hb hg hx hy hz]
  rw [Mat3.mk.injEq]
  refine ⟨?_, ?_, cross_e0_e1⟩
  · rw [cross, show crossRaw ⟨0, 1, 0⟩ ⟨0, 1/2, Real.sqrt 3 / 2⟩ =
        (⟨Real.sqrt 3 / 2, 0, 0⟩ : Vec3) by apply Vec3.ext <;> simp [crossRaw]]
    exact normalizeV_xaxis _ (by positivity)
  · rw [cross, show crossRaw ⟨0, 1/2, Real.sqrt 3 / 2⟩ ⟨1, 0, 0⟩ =
        (⟨0, Real.sqrt 3 / 2, -(1/2)⟩ : Vec3) by apply Vec3.ext <;> simp [crossRaw]]
    exact normalizeV_of_norm_one _ normV_unit_n1

theorem dist6_alpha60 (s : BoxInput) (ha : s.alpha = 60) (hb : s.beta = 90)
    (hg : s.gamma = 90) (hx : 0 < s.lx) (hy : 0 < s.ly) (hz : 0 < s.lz) (p : Vec3) :
    Box.dist6 s p =
      ⟨p.x - s.x0,
       Real.sqrt 3 / 2 * (p.y - s.y0) - 1/2 * (p.z - s.z0),
       p.z - s.z0,
       s.x0 + s.lx - p.x,
       Real.sqrt 3 / 2 * (s.y0 + s.ly + s.lz / Real.sqrt 3 - p.y) -
         1/2 * (s.z0 + s.lz - p.z),
       s.z0 + s.lz - p.z⟩ := by
  simp only [Box.dist6, output_xlo, output_ylo, output_zlo,
    output_alpha60_v s ha hb hg hy, output_alpha60_bn s ha hb hg hx hy hz, dotV,
    Vec3.sub_x, Vec3.sub_y, Vec3.sub_z, Vec3.add_x, Vec3.add_y, Vec3.add_z]
  rw [Box.Dist6.mk.injEq]
  refine ⟨by ring, by ring, by ring, by ring, by ring, by ring⟩

theorem minDist_le_ylo (s : BoxInput) (p : Vec3) :
    Box.minDist s p ≤ (Box.dist6 s p).ylo := by
  unfold Box.minDist
  exact le_trans (le_trans (le_trans (le_trans (min_le_left _ _) (min_le_left _ _))
    (min_le_left _ _)) (min_le_left _ _)) (min_le_right _ _)

/-- Witness for C8's amended theorem: the origin-zeroing clause exercised
on a mutating call for a *triclinic* box (alpha = 60) with `x0 = 5`, and
the length clause on the periodic edge-10 orthogonal box at the origin
with one outbound point. -/
theorem extend_periodic_axis_spec_witness :
    (Box.extend ⟨5, 0, 0, 1, 1, 1, 60, 90, 90, true⟩ [⟨1/2, -1, 9/10⟩]
      (true, true, true)).x0 = 0 ∧
    (Box.extend box10 [⟨20, 5, 5⟩] (true, true, true)).x0 = 0 ∧
    (Box.extend box10 [⟨20, 5, 5⟩] (true, true, true)).lx = box10.lx := by
  have h10 : (0 : ℝ) < box10.lx := by norm_num [box10]
  have hnin : ¬ Box.inbound box10 ⟨20, 5, 5⟩ := by
    rw [inbound_orth_iff box10 rfl rfl rfl h10 h10 h10]
    norm_num [box10]
  have h := extend_periodic_axis_spec box10 [⟨20, 5, 5⟩] (true, true, true)
    (fun hall => hnin (hall _ (by simp)))
  have hdA := dist6_alpha60 ⟨5, 0, 0, 1, 1, 1, 60, 90, 90, true⟩ rfl rfl rfl
    (by norm_num) (by norm_num) (by norm_num) ⟨1/2, -1, 9/10⟩
  have hninA : ¬ Box.inbound ⟨5, 0, 0, 1, 1, 1, 60, 90, 90, true⟩ ⟨1/2, -1, 9/10⟩ := by
    intro hin
    have h2 := le_trans hin (minDist_le_ylo _ _)
    rw [hdA] at h2
    norm_num at h2
    nlinarith [sqrt3_pos, sqrt3_gt]
  have hA := extend_periodic_axis_spec ⟨5, 0, 0, 1, 1, 1, 60, 90, 90, true⟩
    [⟨1/2, -1, 9/10⟩] (true, true, true) (fun hall => hninA (hall _ (by simp)))
  exact ⟨hA.1.1 rfl, h.1.1 rfl, (h.2 rfl rfl rfl h10 h10 h10).1 rfl rfl⟩


open Classical in
/-- Counterexample to C7 as stated: for the triclinic box with
`alpha = 60`, `beta = gamma = 90`, unit lengths and origin 0, the point
`(1/2, -1, 9/10)` is outbound, and it is *still outbound* after
`extend` (all axes non-periodic) ran on exactly that point: the source
takes the componentwise cartesian minimum for the new low corner, which
does not bound the tilted `ylo` face from below. -/
theorem extend_triclinic_counterexample :
    ¬ Box.inbound
      (Box.extend ⟨0, 0, 0, 1, 1, 1, 60, 90, 90, true⟩ [⟨1/2, -1, 9/10⟩]
        (false, false, false))
      ⟨1/2, -1, 9/10⟩ := by
  have hd := dist6_alpha60 ⟨0, 0, 0, 1, 1, 1, 60, 90, 90, true⟩ rfl rfl rfl
    (by norm_num) (by norm_num) (by norm_num) ⟨1/2, -1, 9/10⟩
  have hnin : ¬ Box.inbound ⟨0, 0, 0, 1, 1, 1, 60, 90, 90, true⟩ ⟨1/2, -1, 9/10⟩ := by
    intro hin
    have h2 := le_trans hin (minDist_le_ylo _ _)
    rw [hd] at h2
    norm_num at h2
    nlinarith [sqrt3_pos, sqrt3_gt]
  have hmut : ¬ ∀ p ∈ [(⟨1/2, -1, 9/10⟩ : Vec3)],
      Box.inbound ⟨0, 0, 0, 1, 1, 1, 60, 90, 90, true⟩ p :=
    fun hall => hnin (hall _ (by simp))
  have houtb : ([(⟨1/2, -1, 9/10⟩ : Vec3)].filter
      fun p => decide (¬ Box.inbound ⟨0, 0, 0, 1, 1, 1, 60, 90, 90, true⟩ p)) =
      [⟨1/2, -1, 9/10⟩] := by
    have hdec : decide (¬ Box.inbound ⟨0, 0, 0, 1, 1, 1, 60, 90, 90, true⟩
        (⟨1/2, -1, 9/10⟩ : Vec3)) = true := decide_eq_true hnin
    simp only [List.filter]
    rw [hdec]
  have hy0 : (Box.extend ⟨0, 0, 0, 1, 1, 1, 60, 90, 90, true⟩ [⟨1/2, -1, 9/10⟩]
      (false, false, false)).y0 = -1 - 1e-7 := by
    simp only [Box.extend]
    rw [if_neg hmut]
    simp only [houtb, List.map_cons, List.map_nil, Box.listMinFrom, List.foldl_cons,
      List.foldl_nil]
    norm_num [output_xlo, output_ylo, output_zlo]
  have hz0 : (Box.extend ⟨0, 0, 0, 1, 1, 1, 60, 90, 90, true⟩ [⟨1/2, -1, 9/10⟩]
      (false, false, false)).z0 = 0 := by
    simp only [Box.extend]
    rw [if_neg hmut]
    simp only [houtb, List.map_cons, List.map_nil, Box.listMinFrom, List.foldl_cons,
      List.foldl_nil]
    norm_num [output_xlo, output_ylo, output_zlo]
  have hal : (Box.extend ⟨0, 0, 0, 1, 1, 1, 60, 90, 90, true⟩ [⟨1/2, -1, 9/10⟩]
      (false, false, false)).alpha = 60 := by
    simp only [Box.extend]
    rw [if_neg hmut]
    simp only [houtb, List.map_cons, List.map_nil,
      output_alpha60_u ⟨0, 0, 0, 1, 1, 1, 60, 90, 90, true⟩ rfl rfl rfl
        (by norm_num) (by norm_num) (by norm_num),
      output_alpha60_v ⟨0, 0, 0, 1, 1, 1, 60, 90, 90, true⟩ rfl rfl rfl (by norm_num),
      output_xlo, output_ylo, output_zlo, Box.input_basis, normalizeM,
      Box.listMinFrom, Box.listMax1, List.foldl_cons, List.foldl_nil]
    norm_num [dotV, Real.sqrt_one]
    have hS2pos : (0:ℝ) < (-(1 / 2) + Real.sqrt 3 / 2 * (9 / 10) + 1 / 10000000) ⊔
        Real.sqrt ((Real.sqrt 3)⁻¹ * (Real.sqrt 3)⁻¹ + 1) + 10000001 / 20000000 := by
      have h := le_max_right (-(1 / 2) + Real.sqrt 3 / 2 * (9 / 10) + 1 / 10000000)
        (Real.sqrt ((Real.sqrt 3)⁻¹ * (Real.sqrt 3)⁻¹ + 1))
      have h2 := Real.sqrt_nonneg ((Real.sqrt 3)⁻¹ * (Real.sqrt 3)⁻¹ + 1)
      linarith
    rw [normalizeV_smul ((20000001 : ℝ) / 10000000) (by norm_num) _
        (by rw [normV]; norm_num [Real.sqrt_one]),
      normalizeV_smul _ hS2pos _ normV_unit_tilt]
    rw [show ((⟨0, 1, 0⟩ : Vec3).x * (⟨0, 1/2, Real.sqrt 3 / 2⟩ : Vec3).x +
        (⟨0, 1, 0⟩ : Vec3).y * (⟨0, 1/2, Real.sqrt 3 / 2⟩ : Vec3).y +
        (⟨0, 1, 0⟩ : Vec3).z * (⟨0, 1/2, Real.sqrt 3 / 2⟩ : Vec3).z) = 1/2 by norm_num]
    exact arccos_half_deg
  have hbe : (Box.extend ⟨0, 0, 0, 1, 1, 1, 60, 90, 90, true⟩ [⟨1/2, -1, 9/10⟩]
      (false, false, false)).beta = 90 := by
    simp only [Box.extend]
    rw [if_neg hmut]
    simp only [houtb, List.map_cons, List.map_nil,
      output_alpha60_u ⟨0, 0, 0, 1, 1, 1, 60, 90, 90, true⟩ rfl rfl rfl
        (by norm_num) (by norm_num) (by norm_num),
      output_alpha60_v ⟨0, 0, 0, 1, 1, 1, 60, 90, 90, true⟩ rfl rfl rfl (by norm_num),
      output_xlo, output_ylo, output_zlo, Box.input_basis, normalizeM,
      Box.listMinFrom, Box.listMax1, List.foldl_cons, List.foldl_nil]
    norm_num [dotV, Real.sqrt_one]
    have hS2pos : (0:ℝ) < (-(1 / 2) + Real.sqrt 3 / 2 * (9 / 10) + 1 / 10000000) ⊔
        Real.sqrt ((Real.sqrt 3)⁻¹ * (Real.sqrt 3)⁻¹ + 1) + 10000001 / 20000000 := by
      have h := le_max_right (-(1 / 2) + Real.sqrt 3 / 2 * (9 / 10) + 1 / 10000000)
        (Real.sqrt ((Real.sqrt 3)⁻¹ * (Real.sqrt 3)⁻¹ + 1))
      have h2 := Real.sqrt_nonneg ((Real.sqrt 3)⁻¹ * (Real.sqrt 3)⁻¹ + 1)
      linarith
    rw [normalizeV_smul (1 : ℝ) (by norm_num) _ (by rw [normV]; norm_num [Real.sqrt_one]),
      normalizeV_smul _ hS2pos _ normV_unit_tilt]
    rw [show ((⟨1, 0, 0⟩ : Vec3).x * (⟨0, 1/2, Real.sqrt 3 / 2⟩ : Vec3).x +
        (⟨1, 0, 0⟩ : Vec3).y * (⟨0, 1/2, Real.sqrt 3 / 2⟩ : Vec3).y +
        (⟨1, 0, 0⟩ : Vec3).z * (⟨0, 1/2, Real.sqrt 3 / 2⟩ : Vec3).z) = 0 by norm_num]
    exact arccos_zero_deg
  have hga : (Box.extend ⟨0, 0, 0, 1, 1, 1, 60, 90, 90, true⟩ [⟨1/2, -1, 9/10⟩]
      (false, false, false)).gamma = 90 := by
    simp only [Box.extend]
    rw [if_neg hmut]
    simp only [houtb, List.map_cons, List.map_nil,
      output_alpha60_u ⟨0, 0, 0, 1, 1, 1, 60, 90, 90, true⟩ rfl rfl rfl
        (by norm_num) (by norm_num) (by norm_num),
      output_alpha60_v ⟨0, 0, 0, 1, 1, 1, 60, 90, 90, true⟩ rfl rfl rfl (by norm_num),
      output_xlo, output_ylo, output_zlo, Box.input_basis, normalizeM,
      Box.listMinFrom, Box.listMax1, List.foldl_cons, List.foldl_nil]
    norm_num [dotV, Real.sqrt_one]
    rw [normalizeV_smul (1 : ℝ) (by norm_num) _ (by rw [normV]; norm_num [Real.sqrt_one]),
      normalizeV_smul ((20000001 : ℝ) / 10000000) (by norm_num) _
        (by rw [normV]; norm_num [Real.sqrt_one])]
    rw [show ((⟨1, 0, 0⟩ : Vec3).x * (⟨0, 1, 0⟩ : Vec3).x +
        (⟨1, 0, 0⟩ : Vec3).y * (⟨0, 1, 0⟩ : Vec3).y +
        (⟨1, 0, 0⟩ : Vec3).z * (⟨0, 1, 0⟩ : Vec3).z) = 0 by norm_num]
    exact arccos_zero_deg
  have hlx : 0 < (Box.extend ⟨0, 0, 0, 1, 1, 1, 60, 90, 90, true⟩ [⟨1/2, -1, 9/10⟩]
      (false, false, false)).lx := by
    simp only [Box.extend]
    rw [if_neg hmut]
    simp only [houtb, List.map_cons, List.map_nil,
      output_alpha60_u ⟨0, 0, 0, 1, 1, 1, 60, 90, 90, true⟩ rfl rfl rfl
        (by norm_num) (by norm_num) (by norm_num),
      output_alpha60_v ⟨0, 0, 0, 1, 1, 1, 60, 90, 90, true⟩ rfl rfl rfl (by norm_num),
      output_xlo, output_ylo, output_zlo, Box.input_basis, normalizeM,
      Box.listMinFrom, Box.listMax1, List.foldl_cons, List.foldl_nil]
    norm_num [dotV, Real.sqrt_one]
  have hly : 0 < (Box.extend ⟨0, 0, 0, 1, 1, 1, 60, 90, 90, true⟩ [⟨1/2, -1, 9/10⟩]
      (false, false, false)).ly := by
    simp only [Box.extend]
    rw [if_neg hmut]
    simp only [houtb, List.map_cons, List.map_nil,
      output_alpha60_u ⟨0, 0, 0, 1, 1, 1, 60, 90, 90, true⟩ rfl rfl rfl
        (by norm_num) (by norm_num) (by norm_num),
      output_alpha60_v ⟨0, 0, 0, 1, 1, 1, 60, 90, 90, true⟩ rfl rfl rfl (by norm_num),
      output_xlo, output_ylo, output_zlo, Box.input_basis, normalizeM,
      Box.listMinFrom, Box.listMax1, List.foldl_cons, List.foldl_nil]
    norm_num [dotV, Real.sqrt_one]
  have hlz : 0 < (Box.extend ⟨0, 0, 0, 1, 1, 1, 60, 90, 90, true⟩ [⟨1/2, -1, 9/10⟩]
      (false, false, false)).lz := by
    simp only [Box.extend]
    rw [if_neg hmut]
    simp only [houtb, List.map_cons, List.map_nil,
      output_alpha60_u ⟨0, 0, 0, 1, 1, 1, 60, 90, 90, true⟩ rfl rfl rfl
        (by norm_num) (by norm_num) (by norm_num),
      output_alpha60_v ⟨0, 0, 0, 1, 1, 1, 60, 90, 90, true⟩ rfl rfl rfl (by norm_num),
      output_xlo, output_ylo, output_zlo, Box.input_basis, normalizeM,
      Box.listMinFrom, Box.listMax1, List.foldl_cons, List.foldl_nil]
    norm_num [dotV, Real.sqrt_one]
    have h := le_max_right (-(1 / 2) + Real.sqrt 3 / 2 * (9 / 10) + 1 / 10000000)
      (Real.sqrt ((Real.sqrt 3)⁻¹ * (Real.sqrt 3)⁻¹ + 1))
    have h2 := Real.sqrt_nonneg ((Real.sqrt 3)⁻¹ * (Real.sqrt 3)⁻¹ + 1)
    linarith
  intro hin
  have h2 := le_trans hin (minDist_le_ylo _ _)
  rw [dist6_alpha60 _ hal hbe hga hlx hly hlz _] at h2
  rw [show ((⟨1/2, -1, 9/10⟩ : Vec3)).y = -1 from rfl,
    show ((⟨1/2, -1, 9/10⟩ : Vec3)).z = 9/10 from rfl] at h2
  rw [hy0, hz0] at h2
  norm_num at h2
  nlinarith [sqrt3_pos, sqrt3_lt]

/-! ## C1: the Lattice → Basis → Lattice round trip -/

theorem output_v_fields (s : BoxInput) :
    (Box.output s).v =
      ⟨⟨s.lx, 0, 0⟩, ⟨(Box.output s).xy, s.ly, 0⟩,
       ⟨(Box.output s).xz, (Box.output s).yz, s.lz⟩⟩ := rfl

theorem output_cos_alpha (s : BoxInput) :
    (Box.output s).cos_alpha = Real.cos (s.alpha * deg2rad) := rfl

theorem output_cos_beta (s : BoxInput) :
    (Box.output s).cos_beta = Real.cos (s.beta * deg2rad) := rfl

theorem output_cos_gamma (s : BoxInput) :
    (Box.output s).cos_gamma = Real.cos (s.gamma * deg2rad) := rfl

theorem output_b (s : BoxInput) :
    (Box.output s).b = s.ly / Real.sqrt (1 - (Box.output s).cos_gamma ^ 2) := rfl

theorem output_c (s : BoxInput) :
    (Box.output s).c = s.lz / Real.sqrt (1 - (Box.output s).cos_beta ^ 2 -
      ((Box.output s).cos_alpha - (Box.output s).cos_gamma * (Box.output s).cos_beta) ^ 2 /
      (1 - (Box.output s).cos_gamma ^ 2)) := rfl

theorem output_xy (s : BoxInput) :
    (Box.output s).xy = (Box.output s).b * (Box.output s).cos_gamma := rfl

theorem output_xz (s : BoxInput) :
    (Box.output s).xz = (Box.output s).c * (Box.output s).cos_beta := rfl

theorem output_yz (s : BoxInput) :
    (Box.output s).yz = ((Box.output s).b * (Box.output s).c * (Box.output s).cos_alpha -
      (Box.output s).xy * (Box.output s).xz) / s.ly := rfl

theorem output_a (s : BoxInput) : (Box.output s).a = s.lx := rfl

theorem output_alpha (s : BoxInput) : (Box.output s).alpha = s.alpha := rfl

theorem output_beta (s : BoxInput) : (Box.output s).beta = s.beta := rfl

theorem output_gamma (s : BoxInput) : (Box.output s).gamma = s.gamma := rfl

theorem tiltFix_lx (s : BoxInput) : (Box.tiltFix s).lx = s.lx := by
  unfold Box.tiltFix
  split <;> rfl

theorem tiltFix_ly (s : BoxInput) : (Box.tiltFix s).ly = s.ly := by
  unfold Box.tiltFix
  split <;> rfl

theorem tiltFix_lz (s : BoxInput) : (Box.tiltFix s).lz = s.lz := by
  unfold Box.tiltFix
  split <;> rfl

theorem tiltFix_alpha (s : BoxInput) : (Box.tiltFix s).alpha = s.alpha := by
  unfold Box.tiltFix
  split <;> rfl

theorem tiltFix_beta (s : BoxInput) : (Box.tiltFix s).beta = s.beta := by
  unfold Box.tiltFix
  split <;> rfl

theorem tiltFix_gamma (s : BoxInput) : (Box.tiltFix s).gamma = s.gamma := by
  unfold Box.tiltFix
  split <;> rfl

/-- With the degree factors, `cos` undoes a stored `arccos x * rad2deg`
angle. -/
theorem cos_arccos_deg (x : ℝ) (h1 : -1 ≤ x) (h2 : x ≤ 1) :
    Real.cos ((Real.arccos x * rad2deg) * deg2rad) = x := by
  rw [show (Real.arccos x * rad2deg) * deg2rad = Real.arccos x by
    rw [rad2deg, deg2rad]; field_simp]
  exact Real.cos_arccos h1 h2

/-- With the degree factors, `arccos` recovers an angle in `[0, 180]`. -/
theorem arccos_cos_deg (t : ℝ) (h1 : 0 ≤ t) (h2 : t ≤ 180) :
    Real.arccos (Real.cos (t * deg2rad)) * rad2deg = t := by
  have hp := Real.pi_pos
  have hd1 : 0 ≤ t * deg2rad := by
    rw [deg2rad]
    positivity
  have hd2 : t * deg2rad ≤ Real.pi := by
    rw [deg2rad]
    calc t * (Real.pi / 180) ≤ 180 * (Real.pi / 180) :=
          mul_le_mul_of_nonneg_right h2 (by positivity)
      _ = Real.pi := by field_simp
  rw [Real.arccos_cos hd1 hd2, rad2deg, deg2rad]
  field_simp

/-- C1.  For every valid lattice parameter tuple (positive lengths, angles
in `[0, 180]`, non-degenerate: `cos γ² < 1` and the `c`-radicand positive),
ingesting as Lattice, reading the output basis matrix `v`, re-ingesting it
as Basis and reading the lattice parameters `(a, b, c, alpha, beta, gamma)`
off the derived output reproduces the originals within 1e-9 (the embedding
computes exactly, so the round trip is in fact exact). -/
theorem lattice_basis_roundtrip (a b c alpha beta gamma : ℝ)
    (hapos : 0 < a) (hbpos : 0 < b) (hcpos : 0 < c)
    (ha0 : 0 ≤ alpha) (ha180 : alpha ≤ 180)
    (hb0 : 0 ≤ beta) (hb180 : beta ≤ 180)
    (hg0 : 0 ≤ gamma) (hg180 : gamma ≤ 180)
    (hcg2 : Real.cos (gamma * deg2rad) ^ 2 < 1)
    (hX : 0 < 1 - Real.cos (beta * deg2rad) ^ 2 -
      (Real.cos (alpha * deg2rad) -
        Real.cos (gamma * deg2rad) * Real.cos (beta * deg2rad)) ^ 2 /
        (1 - Real.cos (gamma * deg2rad) ^ 2)) :
    |(Box.output (Box.setBasis initBox
        (Box.output (Box.setLattice initBox a b c alpha beta gamma)).v)).a - a| ≤ 1e-9 ∧
    |(Box.output (Box.setBasis initBox
        (Box.output (Box.setLattice initBox a b c alpha beta gamma)).v)).b - b| ≤ 1e-9 ∧
    |(Box.output (Box.setBasis initBox
        (Box.output (Box.setLattice initBox a b c alpha beta gamma)).v)).c - c| ≤ 1e-9 ∧
    |(Box.output (Box.setBasis initBox
        (Box.output (Box.setLattice initBox a b c alpha beta gamma)).v)).alpha - alpha|
      ≤ 1e-9 ∧
    |(Box.output (Box.setBasis initBox
        (Box.output (Box.setLattice initBox a b c alpha beta gamma)).v)).beta - beta|
      ≤ 1e-9 ∧
    |(Box.output (Box.setBasis initBox
        (Box.output (Box.setLattice initBox a b c alpha beta gamma)).v)).gamma - gamma|
      ≤ 1e-9 := by
  set ca := Real.cos (alpha * deg2rad) with hca
  set cb := Real.cos (beta * deg2rad) with hcb
  set cg := Real.cos (gamma * deg2rad) with hcgd
  have hca1 : -1 ≤ ca := Real.neg_one_le_cos _
  have hca2 : ca ≤ 1 := Real.cos_le_one _
  have hcb1 : -1 ≤ cb := Real.neg_one_le_cos _
  have hcb2 : cb ≤ 1 := Real.cos_le_one _
  have hcg1 : -1 ≤ cg := Real.neg_one_le_cos _
  have hcg2b : cg ≤ 1 := Real.cos_le_one _
  have h1cg : (0 : ℝ) < 1 - cg ^ 2 := by linarith
  set sg := Real.sqrt (1 - cg ^ 2) with hsg
  have hsgpos : 0 < sg := Real.sqrt_pos.mpr h1cg
  have hsg2 : sg ^ 2 = 1 - cg ^ 2 := Real.sq_sqrt h1cg.le
  set X := 1 - cb ^ 2 - (ca - cg * cb) ^ 2 / (1 - cg ^ 2) with hXd
  set sX := Real.sqrt X with hsX
  have hsXpos : 0 < sX := Real.sqrt_pos.mpr hX
  have hsX2 : sX ^ 2 = X := Real.sq_sqrt hX.le
  set s1 := Box.setLattice initBox a b c alpha beta gamma with hs1d
  have hs1lx : s1.lx = a := by
    rw [hs1d, Box.setLattice, tiltFix_lx]
    rfl
  have hs1ly : s1.ly = b * sg := by
    rw [hs1d, Box.setLattice, tiltFix_ly, hsg, hcgd]
    rfl
  have hs1lz : s1.lz = c * sX := by
    rw [hs1d, Box.setLattice, tiltFix_lz, hsX, hXd, hca, hcb, hcgd]
    rfl
  have hs1al : s1.alpha = Real.arccos ca * rad2deg := by
    rw [hs1d, Box.setLattice, tiltFix_alpha, hca]
    rfl
  have hs1be : s1.beta = Real.arccos cb * rad2deg := by
    rw [hs1d, Box.setLattice, tiltFix_beta, hcb]
    rfl
  have hs1ga : s1.gamma = Real.arccos cg * rad2deg := by
    rw [hs1d, Box.setLattice, tiltFix_gamma, hcgd]
    rfl
  have ho1ca : (Box.output s1).cos_alpha = ca := by
    rw [output_cos_alpha, hs1al, cos_arccos_deg ca hca1 hca2]
  have ho1cb : (Box.output s1).cos_beta = cb := by
    rw [output_cos_beta, hs1be, cos_arccos_deg cb hcb1 hcb2]
  have ho1cg : (Box.output s1).cos_gamma = cg := by
    rw [output_cos_gamma, hs1ga, cos_arccos_deg cg hcg1 hcg2b]
  have ho1b : (Box.output s1).b = b := by
    rw [output_b, ho1cg, hs1ly, ← hsg, mul_div_assoc, div_self hsgpos.ne', mul_one]
  have ho1c : (Box.output s1).c = c := by
    rw [output_c, ho1ca, ho1cb, ho1cg, hs1lz, ← hXd, ← hsX, mul_div_assoc,
      div_self hsXpos.ne', mul_one]
  have ho1xy : (Box.output s1).xy = b * cg := by
    rw [output_xy, ho1b, ho1cg]
  have ho1xz : (Box.output s1).xz = c * cb := by
    rw [output_xz, ho1c, ho1cb]
  have ho1yz : (Box.output s1).yz = c * (ca - cg * cb) / sg := by
    rw [output_yz, ho1b, ho1c, ho1ca, ho1xy, ho1xz, hs1ly]
    field_simp
    ring
  have hv1 : (Box.output s1).v =
      ⟨⟨a, 0, 0⟩, ⟨b * cg, b * sg, 0⟩,
       ⟨c * cb, c * (ca - cg * cb) / sg, c * sX⟩⟩ := by
    rw [output_v_fields, hs1lx, hs1ly, hs1lz, ho1xy, ho1xz, ho1yz]
  set s2 := Box.setBasis initBox (Box.output s1).v with hs2d
  set V : Mat3 := ⟨⟨a, 0, 0⟩, ⟨b * cg, b * sg, 0⟩,
    ⟨c * cb, c * (ca - cg * cb) / sg, c * sX⟩⟩ with hVd
  have hs2V : s2 = Box.setBasis initBox V := by rw [hs2d, hv1]
  have hnorm1 : normV V.r1 = b := by
    rw [hVd]
    show normV ⟨b * cg, b * sg, 0⟩ = b
    rw [normV]
    rw [show (b * cg) ^ 2 + (b * sg) ^ 2 + (0 : ℝ) ^ 2 = b ^ 2 by
      rw [mul_pow, mul_pow, hsg2]; ring]
    exact Real.sqrt_sq hbpos.le
  have hnorm2 : normV V.r2 = c := by
    rw [hVd]
    show normV ⟨c * cb, c * (ca - cg * cb) / sg, c * sX⟩ = c
    rw [normV]
    rw [show (c * cb) ^ 2 + (c * (ca - cg * cb) / sg) ^ 2 + (c * sX) ^ 2 = c ^ 2 by
      rw [div_pow, mul_pow c (ca - cg * cb), hsg2, mul_pow c sX, hsX2, hXd]
      field_simp
      ring]
    exact Real.sqrt_sq hcpos.le
  have hu0 : normalizeV V.r0 = ⟨1, 0, 0⟩ := by
    rw [hVd]
    exact normalizeV_xaxis a hapos
  have hu1 : normalizeV V.r1 = ⟨cg, sg, 0⟩ := by
    simp only [normalizeV, hnorm1, if_neg hbpos.ne']
    apply Vec3.ext <;> field_simp [hbpos.ne'] <;> ring
  have hu2 : normalizeV V.r2 = ⟨cb, (ca - cg * cb) / sg, sX⟩ := by
    simp only [normalizeV, hnorm2, if_neg hcpos.ne']
    apply Vec3.ext <;> field_simp [hcpos.ne', hsgpos.ne'] <;> ring
  have hs2lx : s2.lx = a := by
    rw [hs2V, Box.setBasis, tiltFix_lx, hVd]
    rfl
  have hs2ly : s2.ly = b * sg := by
    rw [hs2V, Box.setBasis, tiltFix_ly, hVd]
    rfl
  have hs2lz : s2.lz = c * sX := by
    rw [hs2V, Box.setBasis, tiltFix_lz, hVd]
    rfl
  have hs2al : s2.alpha = Real.arccos ca * rad2deg := by
    rw [hs2V, Box.setBasis, tiltFix_alpha]
    show Real.arccos (dotV (normalizeV V.r1) (normalizeV V.r2)) * rad2deg = _
    rw [hu1, hu2]
    rw [show dotV ⟨cg, sg, 0⟩ ⟨cb, (ca - cg * cb) / sg, sX⟩ = ca by
      rw [dotV]
      field_simp]
  have hs2be : s2.beta = Real.arccos cb * rad2deg := by
    rw [hs2V, Box.setBasis, tiltFix_beta]
    show Real.arccos (dotV (normalizeV V.r0) (normalizeV V.r2)) * rad2deg = _
    rw [hu0, hu2]
    rw [show dotV ⟨1, 0, 0⟩ ⟨cb, (ca - cg * cb) / sg, sX⟩ = cb by
      rw [dotV]; ring]
  have hs2ga : s2.gamma = Real.arccos cg * rad2deg := by
    rw [hs2V, Box.setBasis, tiltFix_gamma]
    show Real.arccos (dotV (normalizeV V.r0) (normalizeV V.r1)) * rad2deg = _
    rw [hu0, hu1]
    rw [show dotV ⟨1, 0, 0⟩ ⟨cg, sg, 0⟩ = cg by rw [dotV]; ring]
  have ho2ca : (Box.output s2).cos_alpha = ca := by
    rw [output_cos_alpha, hs2al, cos_arccos_deg ca hca1 hca2]
  have ho2cb : (Box.output s2).cos_beta = cb := by
    rw [output_cos_beta, hs2be, cos_arccos_deg cb hcb1 hcb2]
  have ho2cg : (Box.output s2).cos_gamma = cg := by
    rw [output_cos_gamma, hs2ga, cos_arccos_deg cg hcg1 hcg2b]
  have hoa : (Box.output s2).a = a := by rw [output_a, hs2lx]
  have hob : (Box.output s2).b = b := by
    rw [output_b, ho2cg, hs2ly, ← hsg, mul_div_assoc, div_self hsgpos.ne', mul_one]
  have hoc : (Box.output s2).c = c := by
    rw [output_c, ho2ca, ho2cb, ho2cg, hs2lz, ← hXd, ← hsX, mul_div_assoc,
      div_self hsXpos.ne', mul_one]
  have hoal : (Box.output s2).alpha = alpha := by
    rw [output_alpha, hs2al, hca, arccos_cos_deg alpha ha0 ha180]
  have hobe : (Box.output s2).beta = beta := by
    rw [output_beta, hs2be, hcb, arccos_cos_deg beta hb0 hb180]
  have hoga : (Box.output s2).gamma = gamma := by
    rw [output_gamma, hs2ga, hcgd, arccos_cos_deg gamma hg0 hg180]
  refine ⟨?_, ?_, ?_, ?_, ?_, ?_⟩
  · rw [hoa]
    norm_num
  · rw [hob]
    norm_num
  · rw [hoc]
    norm_num
  · rw [hoal]
    norm_num
  · rw [hobe]
    norm_num
  · rw [hoga]
    norm_num

/-- Witness for C1 at the cubic cell `a = b = c = 2`, all angles 90. -/
theorem lattice_basis_roundtrip_witness :
    |(Box.output (Box.setBasis initBox
        (Box.output (Box.setLattice initBox 2 2 2 90 90 90)).v)).a - 2| ≤ 1e-9 := by
  have hc0 : Real.cos ((90 : ℝ) * deg2rad) = 0 := cos_90_deg
  refine (lattice_basis_roundtrip 2 2 2 90 90 90 (by norm_num) (by norm_num) (by norm_num)
    (by norm_num) (by norm_num) (by norm_num) (by norm_num) (by norm_num) (by norm_num)
    ?_ ?_).1
  · rw [hc0]
    norm_num
  · rw [hc0]
    norm_num

end Fio
